import Mathlib

set_option maxRecDepth 100000

/-!
Shallow embedding of the material-quantity extraction and consolidation engine
of `src/app.py` (functions `strip_accents`, `norm_cell`, `norm_key`,
`looks_header_row`, `to_float_br`, `is_blank_row`, `is_candidate_title`,
`find_title_near`, `parse_blocks`, `consolidate`), together with proofs of the
specification claims about it.

Modelling conventions:
* cells are `String`s (a Python `None` cell is modelled as `""`, which is what
  `norm_cell` turns it into);
* Python `float` values are modelled as `ℚ`; the numeric literals accepted by
  the model of `float(...)` are the finite decimal/scientific literals (the
  non-finite `inf`/`nan` spellings and digit-group underscores, which never
  denote finite decimal numbers in this pipeline, are treated as parse
  failures);
* Unicode handling (`unicodedata.normalize("NFKD", ...)` and `str.upper`) is
  modelled on the Latin-1 repertoire the application works with (Portuguese
  text); characters outside it are left unchanged;
* the two `while` loops of `parse_blocks` are translated fuel-indexed, with the
  fuel bounds used by `parse_blocks` proved sufficient (claim C9).
-/

/-- Characters that Python's `str.strip` / `re \s` treat as whitespace,
restricted to the Latin-1 repertoire (space, tab, LF, VT, FF, CR, NEL, NBSP). -/
def pySpaceChar (c : Char) : Bool :=
  c = ' ' || c = '\t' || c = '\n' || c = '\r' || c = '\x0b' || c = '\x0c' ||
  c = '\u0085' || c = ' '

/-- The no-break space that `norm_cell` replaces by an ordinary space. -/
def nbsp : Char := ' '

/-- Model of NFKD-decomposition-to-base-letter for one character, restricted to
the Latin-1 letters (plus the ordinal indicators) occurring in the
application's vocabulary; any other character is returned unchanged. -/
def stripAccentChar (c : Char) : Char :=
  if c = 'À' ∨ c = 'Á' ∨ c = 'Â' ∨ c = 'Ã' ∨ c = 'Ä' ∨ c = 'Å' then 'A'
  else if c = 'Ç' then 'C'
  else if c = 'È' ∨ c = 'É' ∨ c = 'Ê' ∨ c = 'Ë' then 'E'
  else if c = 'Ì' ∨ c = 'Í' ∨ c = 'Î' ∨ c = 'Ï' then 'I'
  else if c = 'Ñ' then 'N'
  else if c = 'Ò' ∨ c = 'Ó' ∨ c = 'Ô' ∨ c = 'Õ' ∨ c = 'Ö' then 'O'
  else if c = 'Ù' ∨ c = 'Ú' ∨ c = 'Û' ∨ c = 'Ü' then 'U'
  else if c = 'Ý' then 'Y'
  else if c = 'à' ∨ c = 'á' ∨ c = 'â' ∨ c = 'ã' ∨ c = 'ä' ∨ c = 'å' then 'a'
  else if c = 'ç' then 'c'
  else if c = 'è' ∨ c = 'é' ∨ c = 'ê' ∨ c = 'ë' then 'e'
  else if c = 'ì' ∨ c = 'í' ∨ c = 'î' ∨ c = 'ï' then 'i'
  else if c = 'ñ' then 'n'
  else if c = 'ò' ∨ c = 'ó' ∨ c = 'ô' ∨ c = 'õ' ∨ c = 'ö' then 'o'
  else if c = 'ù' ∨ c = 'ú' ∨ c = 'û' ∨ c = 'ü' then 'u'
  else if c = 'ý' ∨ c = 'ÿ' then 'y'
  else if c = 'ª' then 'a'
  else if c = 'º' then 'o'
  else c

/-- Combining diacritical marks (U+0300–U+036F), dropped by `strip_accents`. -/
def isCombiningChar (c : Char) : Bool :=
  0x300 ≤ c.toNat && c.toNat ≤ 0x36F

/-- Model of `strip_accents` (app.py lines 17–19): NFKD-decompose and drop the
combining marks, on the Latin-1 repertoire. -/
def strip_accents (s : String) : String :=
  String.mk ((s.toList.map stripAccentChar).filter (fun c => ¬ isCombiningChar c))

/-- Splits a character list into its maximal runs of non-whitespace characters
(the words); models `str.strip` followed by `re.sub(r"\s+", " ", ...)`. -/
def wordsAux : List Char → List Char → List (List Char)
  | [], acc => if acc.isEmpty then [] else [acc.reverse]
  | c :: cs, acc =>
    if pySpaceChar c then
      if acc.isEmpty then wordsAux cs [] else acc.reverse :: wordsAux cs []
    else wordsAux cs (c :: acc)

/-- Joins words with single spaces. -/
def joinWords : List (List Char) → List Char
  | [] => []
  | [w] => w
  | w :: ws => w ++ ' ' :: joinWords ws

/-- Model of `norm_cell` (app.py lines 21–26): replace no-break spaces by
spaces, trim, and collapse every whitespace run to a single space. -/
def normCell (s : String) : String :=
  String.mk (joinWords (wordsAux (s.toList.map (fun c => if c = nbsp then ' ' else c)) []))

/-- ASCII upper-casing of one character (model of `str.upper` on the output of
`strip_accents`, whose letters are ASCII). -/
def upperChar (c : Char) : Char :=
  if 'a' ≤ c ∧ c ≤ 'z' then
    match c with
    | 'a' => 'A' | 'b' => 'B' | 'c' => 'C' | 'd' => 'D' | 'e' => 'E' | 'f' => 'F'
    | 'g' => 'G' | 'h' => 'H' | 'i' => 'I' | 'j' => 'J' | 'k' => 'K' | 'l' => 'L'
    | 'm' => 'M' | 'n' => 'N' | 'o' => 'O' | 'p' => 'P' | 'q' => 'Q' | 'r' => 'R'
    | 's' => 'S' | 't' => 'T' | 'u' => 'U' | 'v' => 'V' | 'w' => 'W' | 'x' => 'X'
    | 'y' => 'Y' | 'z' => 'Z' | _ => c
  else c

/-- Upper-casing of a whole string. -/
def upperStr (s : String) : String := String.mk (s.toList.map upperChar)

/-- The post-processing that `norm_key` applies after `norm_cell`: strip
accents, upper-case, remove periods, and keep only uppercase ASCII letters and
digits. -/
def normKeyPost (t : String) : String :=
  let u := upperStr (strip_accents t)
  let u2 := u.toList.filter (fun c => c ≠ '.')
  String.mk (u2.filter (fun c => ('A' ≤ c ∧ c ≤ 'Z') ∨ ('0' ≤ c ∧ c ≤ '9')))

/-- Model of `norm_key` (app.py lines 28–32). -/
def norm_key (s : String) : String := normKeyPost (normCell s)

/-- ASCII decimal digit test (the digits of Python float literals). -/
def isDigitCh (c : Char) : Bool := '0' ≤ c && c ≤ '9'

/-- Numeric value of a big-endian list of ASCII digit characters. -/
def digitsVal (l : List Char) : ℕ :=
  l.foldl (fun a c => a * 10 + (c.toNat - '0'.toNat)) 0

/-- Model of Python's `float(...)` on a whitespace-free character list: an
optional sign, a decimal mantissa (digits, with an optional fractional part
after a period), and an optional decimal exponent.  Returns `none` on any
other input (in particular on the empty mantissa, trailing garbage, and on the
non-finite `inf`/`nan` spellings, which have no finite value).
`pyFloatTail` handles the part after the optional leading sign: `ip` are the
integer-part digits and `r1` the remainder (optional fraction after a period,
then an optional exponent); nothing may trail the number. -/
def pyFloatTail (neg : Bool) (ip r1 : List Char) : Option ℚ :=
  let fp := if r1.head? = some '.' then r1.tail.takeWhile isDigitCh else []
  let r2 := if r1.head? = some '.' then r1.tail.dropWhile isDigitCh else r1
  if ip = [] ∧ fp = [] then none
  else
    let mant : ℚ :=
      (if neg then -1 else 1) *
        ((digitsVal ip : ℚ) + (digitsVal fp : ℚ) / (10 : ℚ) ^ fp.length)
    if r2 = [] then some mant
    else if r2.head? = some 'e' ∨ r2.head? = some 'E' then
      let t := r2.tail
      let t1 := if t.head? = some '-' ∨ t.head? = some '+' then t.tail else t
      let ed := t1.takeWhile isDigitCh
      if ed = [] ∨ t1.dropWhile isDigitCh ≠ [] then none
      else if t.head? = some '-' then some (mant / (10 : ℚ) ^ digitsVal ed)
      else some (mant * (10 : ℚ) ^ digitsVal ed)
    else none

/-- The optional leading sign followed by the mantissa and exponent. -/
def pyFloat (l : List Char) : Option ℚ :=
  pyFloatTail (decide (l.head? = some '-'))
    ((if l.head? = some '-' ∨ l.head? = some '+' then l.tail else l).takeWhile isDigitCh)
    ((if l.head? = some '-' ∨ l.head? = some '+' then l.tail else l).dropWhile isDigitCh)

/-- Model of `to_float_br` (app.py lines 68–78): normalize, return `0` for
empty text, drop spaces, treat a comma as the decimal separator (first
stripping period thousands separators), and return `0` on parse failure. -/
def to_float_br (x : String) : ℚ :=
  let s := normCell x
  if s = "" then 0
  else
    let l := s.toList.filter (fun c => c ≠ ' ')
    let l2 := if l.contains ',' then (l.filter (fun c => c ≠ '.')).map (fun c => if c = ',' then '.' else c) else l
    match pyFloat l2 with
    | some q => q
    | none => 0

/-- Model of Python's textual rendering `str(float(n))` of an integer-valued
float (`repr` of e.g. `3.0` is `"3.0"`), built from `Nat.digits`.  Modelled
from the spec clause on `parseLocaleNumber` being idempotent on its own
textual output for integers (the renderer itself lives in the Python runtime,
not in `src/app.py`). -/
def digitChar (d : ℕ) : Char :=
  match d with
  | 0 => '0' | 1 => '1' | 2 => '2' | 3 => '3' | 4 => '4'
  | 5 => '5' | 6 => '6' | 7 => '7' | 8 => '8' | _ => '9'

/-- Base-10 digits of a natural number, little-endian, with explicit fuel so
that the definition is structurally recursive. -/
def natDigitsAux : ℕ → ℕ → List ℕ
  | 0, _ => []
  | fuel + 1, n => if n = 0 then [] else (n % 10) :: natDigitsAux fuel (n / 10)

/-- Base-10 digits of a natural number, little-endian. -/
def natDigits (n : ℕ) : List ℕ := natDigitsAux n n

/-- Decimal digit characters of a natural number, big-endian. -/
def natReprChars (n : ℕ) : List Char :=
  if n = 0 then ['0'] else (natDigits n).reverse.map digitChar

/-- Decimal rendering of an integer, with a leading minus sign when negative. -/
def intReprChars (i : ℤ) : List Char :=
  (if i < 0 then ['-'] else []) ++ natReprChars i.natAbs

/-- Python's `str` of an integer-valued float: the integer digits followed by
`".0"`. -/
def pyFloatIntRepr (i : ℤ) : String :=
  String.mk (intReprChars i ++ ['.', '0'])

example : normCell "  a  b  " = "a b" := by decide
example : norm_key " CÓD. BK " = "CODBK" := by decide
example : to_float_br "1.234,56" = 123456 / 100 := by
  simp +decide [to_float_br, pyFloat, pyFloatTail, normCell, wordsAux, joinWords, digitsVal]
  norm_num
example : to_float_br "abc" = 0 := by
  simp +decide [to_float_br, pyFloat, pyFloatTail, normCell, wordsAux, joinWords]
example : to_float_br "3,5" = 7 / 2 := by
  simp +decide [to_float_br, pyFloat, pyFloatTail, normCell, wordsAux, joinWords, digitsVal]
  norm_num
example : pyFloatIntRepr (-12) = "-12.0" := by decide
example : to_float_br "-12.0" = -12 := by
  simp +decide [to_float_br, pyFloat, pyFloatTail, normCell, wordsAux, joinWords, digitsVal]

/-! ## Header Matcher (`looks_header_row`, app.py lines 34–66) -/

/-- The six canonical fields, in the order of `CANON_HEADERS` /
the `HDR_KEYS` dictionary of app.py line 15 and lines 34–41. -/
inductive CanonField where
  | item
  | codBk
  | codCliente
  | descricao
  | quant
  | un
deriving DecidableEq

/-- The canonical field order (`CANON_HEADERS`). -/
def CANON_FIELDS : List CanonField :=
  [CanonField.item, CanonField.codBk, CanonField.codCliente, CanonField.descricao, CanonField.quant, CanonField.un]

/-- The exact alias sets of `HDR_KEYS` (app.py lines 34–41). -/
def variants : CanonField → List String
  | CanonField.item => ["ITEM"]
  | CanonField.codBk => ["CODBK", "CODIGOBK", "CDBK"]
  | CanonField.codCliente => ["CODCLIENTE", "CODIGOCLIENTE", "CDCLIENTE"]
  | CanonField.descricao => ["DESCRICAO", "DESCR", "DESCRI", "MATERIAL", "NOME"]
  | CanonField.quant => ["QUANT", "QUANTIDADE", "QTD", "QTDE"]
  | CanonField.un => ["UN", "UND", "UNID", "UNIDADE"]

/-- Substring test: `pat` occurs contiguously in `hay` (Python's `in`). -/
def strContains (hay pat : String) : Bool :=
  hay.toList.tails.any (fun t => pat.toList.isPrefixOf t)

/-- The per-field `contains` fallback rules of app.py lines 55–63. -/
def fallbackCond : CanonField → String → Bool
  | CanonField.descricao, k => strContains k "DESCR"
  | CanonField.quant, k => strContains k "QUANT" || strContains k "QTD"
  | CanonField.codBk, k => strContains k "BK" && strContains k "COD"
  | CanonField.codCliente, k => strContains k "CLIENTE" && strContains k "COD"
  | _, _ => false

/-- A normalized key satisfies a canonical field when it is one of the exact
aliases or matches the field's substring fallback rule. -/
def satisfies (h : CanonField) (k : String) : Bool :=
  (variants h).contains k || fallbackCond h k

/-- The partial field-to-column assignment built up by `looks_header_row`
(the Python dict `found`). -/
def Found : Type := CanonField → Option ℕ

/-- The empty assignment. -/
def initFound : Found := fun _ => none

/-- Processing of one header field for one cell key: skip fields that are
already assigned, otherwise assign the current column on an exact alias or a
fallback match (the body of the inner `for h, variants ...` loop). -/
def hdrStep (k : String) (i : ℕ) (fd : Found) (h : CanonField) : Found :=
  if (fd h).isSome then fd
  else if (variants h).contains k then Function.update fd h (some i)
  else if fallbackCond h k then Function.update fd h (some i)
  else fd

/-- Processing of one cell (column `i`, key `k`): empty keys are skipped,
otherwise each canonical field is tried in order. -/
def processCell (fd : Found) (i : ℕ) (k : String) : Found :=
  if k = "" then fd else CANON_FIELDS.foldl (hdrStep k i) fd

/-- The `for i, k in enumerate(keys)` scan of app.py lines 46–63. -/
def scanCells : Found → ℕ → List String → Found
  | fd, _, [] => fd
  | fd, i, k :: ks => scanCells (processCell fd i k) (i + 1) ks

/-- A complete header mapping: one column index per canonical field. -/
structure HeaderMapping where
  item : ℕ
  codBk : ℕ
  codCliente : ℕ
  descricao : ℕ
  quant : ℕ
  un : ℕ
deriving DecidableEq

/-- Column of a canonical field in a header mapping. -/
def HeaderMapping.get (m : HeaderMapping) : CanonField → ℕ
  | CanonField.item => m.item
  | CanonField.codBk => m.codBk
  | CanonField.codCliente => m.codCliente
  | CanonField.descricao => m.descricao
  | CanonField.quant => m.quant
  | CanonField.un => m.un

/-- The final `all(h in found for h in CANON_HEADERS)` check of app.py
lines 64–66: a mapping is produced only when every field is assigned. -/
def mkMapping (fd : Found) : Option HeaderMapping :=
  if hall : ∀ f ∈ CANON_FIELDS, (fd f).isSome then
    some
      ⟨(fd CanonField.item).get (hall _ (by decide)),
       (fd CanonField.codBk).get (hall _ (by decide)),
       (fd CanonField.codCliente).get (hall _ (by decide)),
       (fd CanonField.descricao).get (hall _ (by decide)),
       (fd CanonField.quant).get (hall _ (by decide)),
       (fd CanonField.un).get (hall _ (by decide))⟩
  else none

/-- Model of `looks_header_row` (app.py lines 43–66). -/
def looks_header_row (row : List String) : Option HeaderMapping :=
  mkMapping (scanCells initFound 0 (row.map norm_key))

example :
    looks_header_row ["ITEM", "CÓD. BK", "CÓD. CLIENTE", "DESCRIÇÃO", "QUANT.", "UN."]
      = some ⟨0, 1, 2, 3, 4, 5⟩ := by decide
example : looks_header_row ["ITEM", "CÓD. BK", "CÓD. CLIENTE", "DESCRIÇÃO", "QUANT."] = none := by
  decide
example : looks_header_row ["x", "ITEM", "CÓD. BK", "CÓD. CLIENTE", "Descrição de material", "QTDE", "UNID"]
    = some ⟨1, 2, 3, 4, 5, 6⟩ := by decide

/-! ## Blank rows and Title Locator (app.py lines 80–111) -/

/-- Model of `is_blank_row` (app.py lines 80–81): every cell normalizes to the
empty string. -/
def is_blank_row (row : List String) : Bool :=
  row.all (fun c => normCell c = "")

/-- A letter in the sense of the regex `[A-Za-zÀ-ÿ]` of app.py line 87
(the Latin-1 range `À`–`ÿ` includes `×` and `÷`, faithfully to the regex). -/
def isLetterLike (c : Char) : Bool :=
  ('A' ≤ c && c ≤ 'Z') || ('a' ≤ c && c ≤ 'z') || (0xC0 ≤ c.toNat && c.toNat ≤ 0xFF)

/-- A word character in the sense of the Unicode-aware regex `\w` of app.py
line 93, restricted to the Latin-1 repertoire: ASCII alphanumerics, the
underscore, the Latin-1 letters (excluding the `×` and `÷` signs) and the
ordinal/micro signs. -/
def isWordChar (c : Char) : Bool :=
  ('A' ≤ c && c ≤ 'Z') || ('a' ≤ c && c ≤ 'z') || ('0' ≤ c && c ≤ '9') || c = '_' ||
  (0xC0 ≤ c.toNat && c.toNat ≤ 0xFF && c ≠ '×' && c ≠ '÷') ||
  c = 'ª' || c = 'µ' || c = 'º'

/-- The header-like denylist substrings of app.py line 90. -/
def badSubs : List String :=
  ["ITEM", "COD", "CÓD", "CLIENTE", "DESCR", "DESCRI", "QUANT", "UN"]

/-- Model of `is_candidate_title` (app.py lines 83–95): at least four
characters, at least one letter, no denylisted substring in the
accent-stripped upper-cased text, and not made of digits and non-word
characters only (the regex `[0-9\W]+` full match). -/
def is_candidate_title (text : String) : Bool :=
  let t := normCell text
  if t.length < 4 then false
  else if ¬ t.toList.any isLetterLike then false
  else
    let u := upperStr (strip_accents t)
    if badSubs.any (fun b => strContains u b) then false
    else if t.toList ≠ [] ∧ t.toList.all (fun c => isDigitCh c || ¬ isWordChar c) then false
    else true

/-- The cells inspected by `find_title_near` (app.py lines 98–103): all cells
of the rows `max(0, i-3) .. min(len(matrix)-1, i+3)`, in scan order.  With
natural subtraction, the first row is `i - 3` and the exclusive upper bound
`min(len(matrix)-1, i+3) + 1` is `min(len(matrix), i+4)` (both are `0` on an
empty grid, matching Python's empty range). -/
def windowCells (matrix : List (List String)) (i : ℕ) : List String :=
  let r0 := i - 3
  let stop := min matrix.length (i + 4)
  ((List.range' r0 (stop - r0)).map (fun r => matrix.getD r [])).flatten

/-- The `(len(txt), txt)` candidate list of app.py lines 101–106. -/
def titleCandidates (matrix : List (List String)) (i : ℕ) : List (ℕ × String) :=
  (windowCells matrix i).filterMap (fun val =>
    let txt := normCell val
    if is_candidate_title txt then some (txt.length, txt) else none)

/-- Ordering used by `candidates.sort(reverse=True, key=lambda x: x[0])`:
length descending.  Python's sort is stable, so a stable insertion sort with
this non-strict comparison models it exactly. -/
def lenGe (p q : ℕ × String) : Prop := q.1 ≤ p.1

instance : DecidableRel lenGe := fun p q => Nat.decLe q.1 p.1

/-- Model of `find_title_near` (app.py lines 97–111): empty candidate list
gives `""`, otherwise the first element of the stable descending sort. -/
def find_title_near (matrix : List (List String)) (i : ℕ) : String :=
  match List.insertionSort lenGe (titleCandidates matrix i) with
  | [] => ""
  | p :: _ => p.2

/-- The `find_title_near(matrix, i) or fallback_title` idiom of app.py
line 126: the empty (falsy) title falls back to the caller's default. -/
def resolveTitle (matrix : List (List String)) (i : ℕ) (fallback : String) : String :=
  let t := find_title_near matrix i
  if t = "" then fallback else t

example : is_candidate_title "QUANT. TOTAL" = false := by decide
example : is_candidate_title "PORTA CORTA FOGO" = true := by decide
example : is_candidate_title "12.34" = false := by decide
example : is_candidate_title "ESCADA PARA DISJUNTOR" = false := by decide
example :
    find_title_near [["", "PORTA CORTA FOGO"], ["QUANT. TOTAL", "CASA"], [""]] 1
      = "PORTA CORTA FOGO" := by decide

/-! ## Block Parser (`parse_blocks`, app.py lines 113–163) -/

/-- One extracted detail row (one element of `rows_out`). -/
structure DetailRow where
  arquivo : String
  aba : String
  desenho : String
  bloco : ℕ
  item : String
  codBk : String
  codCliente : String
  descricao : String
  quant : String
  un : String
deriving DecidableEq

/-- Positional cell access `r[idx] if idx < max_cols else ""` (app.py
lines 144 and 151–156); out-of-range columns give empty text. -/
def cellAt (r : List String) (idx maxCols : ℕ) : String :=
  if idx < maxCols then r.getD idx "" else ""

/-- Materialization of one data row (app.py lines 144–157): the DESCRIÇÃO cell
is read through the block's mapping, and the row is kept only when it
normalizes to non-empty text. -/
def extractRow (fonte sheet title : String) (bloco : ℕ) (mapping : HeaderMapping)
    (maxCols : ℕ) (r : List String) : Option DetailRow :=
  let desc := cellAt r mapping.descricao maxCols
  if normCell desc ≠ "" then
    some
      { arquivo := fonte, aba := sheet, desenho := title, bloco := bloco,
        item := cellAt r mapping.item maxCols,
        codBk := cellAt r mapping.codBk maxCols,
        codCliente := cellAt r mapping.codCliente maxCols,
        descricao := desc,
        quant := cellAt r mapping.quant maxCols,
        un := cellAt r mapping.un maxCols }
  else none

/-- The inner `while i < len(matrix)` loop of app.py lines 131–158, fuel
indexed.  Returns the final row index together with the detail rows emitted by
the block, in order.  A header row breaks without consuming the row; a second
consecutive blank row breaks without consuming it; otherwise the row is
consumed (blank rows bump the blank counter, data rows reset it and may emit a
`DetailRow`). -/
def innerLoop (matrix : List (List String)) (maxCols : ℕ) (fonte sheet title : String)
    (bloco : ℕ) (mapping : HeaderMapping) : ℕ → ℕ → ℕ → ℕ × List DetailRow
  | 0, i, _ => (i, [])
  | fuel + 1, i, blank =>
    if i < matrix.length then
      let r := matrix.getD i []
      if (looks_header_row r).isSome then (i, [])
      else if is_blank_row r then
        if blank + 1 ≥ 2 then (i, [])
        else innerLoop matrix maxCols fonte sheet title bloco mapping fuel (i + 1) (blank + 1)
      else
        let rest := innerLoop matrix maxCols fonte sheet title bloco mapping fuel (i + 1) 0
        (rest.1, (extractRow fonte sheet title bloco mapping maxCols r).toList ++ rest.2)
    else (i, [])

/-- The outer `while i < len(matrix)` loop of app.py lines 122–161, fuel
indexed: rows that are not headers are skipped; a header row starts block
`bloco + 1`, resolves its title once, and runs the inner loop from the next
row with the blank counter reset to `0`. -/
def outerLoop (matrix : List (List String)) (maxCols : ℕ) (fonte sheet fallback : String) :
    ℕ → ℕ → ℕ → List DetailRow
  | 0, _, _ => []
  | fuel + 1, i, bloco =>
    if i < matrix.length then
      match looks_header_row (matrix.getD i []) with
      | some mapping =>
        let title := resolveTitle matrix i fallback
        let res := innerLoop matrix maxCols fonte sheet title (bloco + 1) mapping
          matrix.length (i + 1) 0
        res.2 ++ outerLoop matrix maxCols fonte sheet fallback fuel res.1 (bloco + 1)
      | none => outerLoop matrix maxCols fonte sheet fallback fuel (i + 1) bloco
    else []

/-- Model of `parse_blocks` (app.py lines 113–163): normalize every cell of
the raw grid, then run the scan from row `0` with block counter `0`.
`maxCols` is `df_raw.shape[1]`, the rectangular width of the grid.  The fuel
`matrix.length` is sufficient: the row index strictly increases on every
outer iteration (proved with claim C9). -/
def parse_blocks (grid : List (List String)) (maxCols : ℕ)
    (fonte sheet fallback : String) : List DetailRow :=
  let matrix := grid.map (fun row => row.map normCell)
  outerLoop matrix maxCols fonte sheet fallback matrix.length 0 0

example :
    parse_blocks
      [["ITEM", "CÓD. BK", "CÓD. CLIENTE", "DESCRIÇÃO", "QUANT.", "UN."],
       ["1", "BK01", "C01", "Parafuso M8", "3,5", "UN"],
       ["", "", "", "", "", ""],
       ["", "", "", "", "", ""],
       ["nota solta", "", "", "", "", ""]]
      6 "arq.xlsx" "Plan1" ""
      = [{ arquivo := "arq.xlsx", aba := "Plan1", desenho := "Parafuso M8", bloco := 1,
           item := "1", codBk := "BK01", codCliente := "C01",
           descricao := "Parafuso M8", quant := "3,5", un := "UN" }] := by decide

/-! ## Consolidator (`consolidate`, app.py lines 165–206) -/

/-- Model of Python's `str.strip`: drop leading and trailing whitespace. -/
def pyStrip (s : String) : String :=
  String.mk (((s.toList.dropWhile pySpaceChar).reverse.dropWhile pySpaceChar).reverse)

/-- The provenance token `f'{file} | {sheet} | T{bloco}'` of app.py line 189. -/
def fonteOf (r : DetailRow) : String :=
  r.arquivo ++ " | " ++ r.aba ++ " | T" ++ toString r.bloco

/-- Fuel-indexed floor of the base-2 logarithm of a natural number:
`natLog2 fuel n = ⌊log₂ n⌋` for `n ≥ 1` whenever `fuel` bounds the recursion
depth (the fuel keeps the recursion structural, hence kernel-computable). -/
def natLog2 : ℕ → ℕ → ℕ
  | 0, _ => 0
  | fuel + 1, n => if n ≤ 1 then 0 else natLog2 fuel (n / 2) + 1

/-- `⌊log₂ q⌋` of a positive rational.  (4000 units of fuel cover far more
than the exponent range a binary64 value can reach.) -/
def qlog2floor (q : ℚ) : ℤ :=
  if 1 ≤ q then (natLog2 4000 ⌊q⌋.toNat : ℤ)
  else
    (if q⁻¹ = 2 ^ natLog2 4000 ⌊q⁻¹⌋.toNat then 0 else -1) -
      (natLog2 4000 ⌊q⁻¹⌋.toNat : ℤ)

/-- The nearest integer to a rational, ties going to the even integer. -/
def roundInt (x : ℚ) : ℤ :=
  if x - ⌊x⌋ < 1 / 2 then ⌊x⌋
  else if 1 / 2 < x - ⌊x⌋ then ⌊x⌋ + 1
  else if ⌊x⌋ % 2 = 0 then ⌊x⌋ else ⌊x⌋ + 1

/-- Rounding of a rational to the grid of multiples of `2 ^ e`, nearest,
ties to even. -/
def roundAt (m : ℚ) (e : ℤ) : ℚ :=
  if 0 ≤ e then (roundInt (m / 2 ^ e.toNat) : ℚ) * 2 ^ e.toNat
  else (roundInt (m * 2 ^ (-e).toNat) : ℚ) / 2 ^ (-e).toNat

/-- Rounding of an exact rational to IEEE-754 binary64 (the representation of
a Python `float`): round-to-nearest, ties-to-even, at 53 significant bits for
normal magnitudes and at the fixed step `2 ^ (-1074)` in the subnormal range.
Every binary64 value is a rational, so ℚ carries the float values exactly;
overflow to infinity (beyond `2 ^ 1024`) is outside the modelled range. -/
def roundB64 (q : ℚ) : ℚ :=
  if q = 0 then 0
  else if 0 < q then roundAt q (max (qlog2floor q - 52) (-1074))
  else -roundAt (-q) (max (qlog2floor (-q) - 52) (-1074))

/-- Python's float addition (the `+=` of app.py line 188): the exact sum of
the two binary64 operands, rounded back to binary64. -/
def addF64 (a b : ℚ) : ℚ := roundB64 (a + b)

/-- One aggregation cell of the `agg` dictionary (app.py lines 179–186):
representative codes and unit, the running quantity sum, and the provenance
and title sets.  `qsum` holds the binary64 value of the Python float that the
program accumulates: every addition into it rounds via `addF64`, so the field
is order-sensitive exactly as the program's `QSUM` is. -/
structure AggEntry where
  codBk : String
  codCliente : String
  un : String
  qsum : ℚ
  fontes : Finset String
  desenhos : Finset String
deriving DecidableEq

/-- The empty `agg` dictionary. -/
def initAgg : String → Option AggEntry := fun _ => none

/-- Processing of one detail row by `consolidate` (app.py lines 172–192):
skip rows with blank description; seed a new entry (and extend the first-seen
order list) on a new key; add the parsed quantity (with the binary64 rounding
of the float `+=` of line 188), the provenance token and the non-blank
stripped title. -/
def consolidateStep (st : (String → Option AggEntry) × List String) (row : DetailRow) :
    (String → Option AggEntry) × List String :=
  let desc := pyStrip row.descricao
  if desc = "" then st
  else
    let prev := st.1 desc
    let base : AggEntry :=
      match prev with
      | some e => e
      | none => ⟨row.codBk, row.codCliente, row.un, 0, ∅, ∅⟩
    let desen := pyStrip row.desenho
    let updated : AggEntry :=
      ⟨base.codBk, base.codCliente, base.un,
       addF64 base.qsum (to_float_br row.quant),
       insert (fonteOf row) base.fontes,
       if desen = "" then base.desenhos else insert desen base.desenhos⟩
    let newOrder := match prev with
      | some _ => st.2
      | none => st.2 ++ [desc]
    (Function.update st.1 desc (some updated), newOrder)

/-- The full aggregation pass over the detail rows. -/
def consolidateState (rows : List DetailRow) : (String → Option AggEntry) × List String :=
  rows.foldl consolidateStep (initAgg, [])

/-- One output record of the consolidated table. -/
structure ConsolidatedRow where
  codBk : String
  codCliente : String
  descricao : String
  quant : ℚ
  un : String
  desenhos : String
  arquivosOrigem : String
deriving DecidableEq

/-- Rendering of a set as its members sorted lexicographically and joined
with a semicolon (the `"; ".join(sorted(...))` of app.py lines 203–204). -/
def joinSorted (s : Finset String) : String :=
  String.intercalate "; " (s.sort (fun a b => a ≤ b))

/-- Model of `consolidate` (app.py lines 165–206): aggregate all detail rows,
then emit one record per description key in first-seen order.  (For keys in
the order list the dictionary always holds an entry; the `filterMap` models
the dictionary lookup `agg[desc]`.) -/
def consolidate (rows : List DetailRow) : List ConsolidatedRow :=
  let st := consolidateState rows
  st.2.filterMap (fun desc =>
    (st.1 desc).map (fun d =>
      { codBk := d.codBk, codCliente := d.codCliente, descricao := desc,
        quant := d.qsum, un := d.un,
        desenhos := joinSorted d.desenhos,
        arquivosOrigem := joinSorted d.fontes }))

/-! ## Specification-side characterizations -/

/-- Left-biased choice on options (Python's "first assignment wins"). -/
def optOr : Option ℕ → Option ℕ → Option ℕ
  | some x, _ => some x
  | none, b => b

/-- Index (from offset `i`) of the first key of `ks` satisfying field `h`. -/
def firstSatP (h : CanonField) : List String → ℕ → Option ℕ
  | [], _ => none
  | k :: ks, i => if satisfies h k then some i else firstSatP h ks (i + 1)

/-- The aggregation key of a detail row: its stripped description. -/
def keyOf (r : DetailRow) : String := pyStrip r.descricao

/-- The non-empty aggregation keys of a row list, with multiplicity, in
order. -/
def keysOf (rows : List DetailRow) : List String :=
  rows.filterMap (fun r => if keyOf r = "" then none else some (keyOf r))

/-- The rows aggregating into the key `desc`. -/
def rowsFor (rows : List DetailRow) (desc : String) : List DetailRow :=
  rows.filter (fun r => keyOf r == desc)

/-- The quantity sum of a key: the parsed quantities of its rows accumulated
in row order by binary64 float addition (the order-dependent IEEE fold the
program computes, not an exact sum). -/
def qsumSpec (rows : List DetailRow) (desc : String) : ℚ :=
  (rowsFor rows desc).foldl (fun acc r => addF64 acc (to_float_br r.quant)) 0

/-- The provenance set of a key. -/
def fontesSpec (rows : List DetailRow) (desc : String) : Finset String :=
  ((rowsFor rows desc).map fonteOf).toFinset

/-- The title set of a key: the non-blank stripped titles of its rows. -/
def desenhosSpec (rows : List DetailRow) (desc : String) : Finset String :=
  ((rowsFor rows desc).filterMap (fun r =>
    if pyStrip r.desenho = "" then none else some (pyStrip r.desenho))).toFinset

/-- The expected aggregation entry of a key: representative fields from the
first row seen for the key, quantity sum and sets over all its rows. -/
def entrySpec (rows : List DetailRow) (desc : String) : Option AggEntry :=
  (rows.find? (fun r => keyOf r == desc)).map (fun r0 =>
    ⟨r0.codBk, r0.codCliente, r0.un, qsumSpec rows desc,
     fontesSpec rows desc, desenhosSpec rows desc⟩)

/-- The expected aggregation dictionary (no entry for the empty key, which
`consolidate` skips). -/
def aggSpec (rows : List DetailRow) : String → Option AggEntry :=
  fun desc => if desc = "" then none else entrySpec rows desc

/-- First occurrences of a list's elements, in order of first appearance. -/
def firstSeenAux (seen : List String) : List String → List String
  | [] => []
  | x :: t => if x ∈ seen then firstSeenAux seen t else x :: firstSeenAux (x :: seen) t

/-- Deduplication keeping the first occurrence of each element. -/
def firstSeen (l : List String) : List String := firstSeenAux [] l

/-- The first element of maximal first component of a candidate list (what a
stable descending sort puts in front). -/
def firstMaxSpec : List (ℕ × String) → Option (ℕ × String)
  | [] => none
  | p :: t =>
    match firstMaxSpec t with
    | none => some p
    | some q => if q.1 ≤ p.1 then some p else some q

/-! ## Lemmas about the Header Matcher -/

theorem optOr_none (a : Option ℕ) : optOr a none = a := by
  cases a <;> rfl

theorem optOr_assoc (a b c : Option ℕ) : optOr (optOr a b) c = optOr a (optOr b c) := by
  cases a <;> cases b <;> rfl

theorem satisfies_empty (h : CanonField) : satisfies h "" = false := by
  cases h <;> decide

theorem mem_CANON_FIELDS (h : CanonField) : h ∈ CANON_FIELDS := by
  cases h <;> decide

theorem nodup_CANON_FIELDS : CANON_FIELDS.Nodup := by decide

theorem hdrStep_apply_ne (k : String) (i : ℕ) (fd : Found) (h2 h : CanonField)
    (hne : h2 ≠ h) : hdrStep k i fd h2 h = fd h := by
  unfold hdrStep
  split_ifs <;> simp [Function.update_noteq (Ne.symm hne)]

theorem hdrStep_apply_self (k : String) (i : ℕ) (fd : Found) (h : CanonField) :
    hdrStep k i fd h h = optOr (fd h) (if satisfies h k then some i else none) := by
  unfold hdrStep
  rcases e : fd h with _ | v
  · by_cases h1 : (variants h).contains k
    · simp only [e, Option.isSome_none, Bool.false_eq_true, if_false, h1, if_true]
      rw [show satisfies h k = true by simp [satisfies]; simp at h1; exact Or.inl h1]
      simp [optOr, Function.update_same]
    · by_cases h2 : fallbackCond h k
      · simp only [e, Option.isSome_none, Bool.false_eq_true, if_false, h1, h2, if_true]
        rw [show satisfies h k = true by simp [satisfies]; exact Or.inr h2]
        simp [optOr, Function.update_same]
      · simp only [e, Option.isSome_none, Bool.false_eq_true, if_false, h1, h2]
        rw [show satisfies h k = false by simp [satisfies, h2]; simp at h1; exact h1]
        simp [optOr, e]
  · simp [e, optOr]

theorem foldl_hdrStep_not_mem (k : String) (i : ℕ) (h : CanonField) (L : List CanonField) :
    ∀ fd : Found, h ∉ L → (L.foldl (hdrStep k i) fd) h = fd h := by
  induction L with
  | nil => intro fd _; rfl
  | cons h2 t ih =>
    intro fd hmem
    rw [List.mem_cons, not_or] at hmem
    simp only [List.foldl_cons]
    rw [ih _ hmem.2, hdrStep_apply_ne k i fd h2 h (fun e => hmem.1 e.symm)]

theorem foldl_hdrStep_mem (k : String) (i : ℕ) (h : CanonField) (L : List CanonField) :
    ∀ fd : Found, h ∈ L → L.Nodup →
      (L.foldl (hdrStep k i) fd) h = optOr (fd h) (if satisfies h k then some i else none) := by
  induction L with
  | nil => intro fd hmem _; cases hmem
  | cons h2 t ih =>
    intro fd hmem hnd
    rw [List.nodup_cons] at hnd
    simp only [List.foldl_cons]
    by_cases heq : h2 = h
    · subst heq
      rw [foldl_hdrStep_not_mem k i h2 t _ hnd.1, hdrStep_apply_self]
    · rcases List.mem_cons.mp hmem with he | ht
      · exact absurd he.symm heq
      · rw [ih _ ht hnd.2, hdrStep_apply_ne k i fd h2 h heq]

theorem processCell_apply (fd : Found) (i : ℕ) (k : String) (h : CanonField) :
    processCell fd i k h = optOr (fd h) (if satisfies h k then some i else none) := by
  unfold processCell
  by_cases hk : k = ""
  · subst hk
    simp [satisfies_empty, optOr_none]
  · simp only [hk, if_false]
    exact foldl_hdrStep_mem k i h CANON_FIELDS fd (mem_CANON_FIELDS h) nodup_CANON_FIELDS

theorem scanCells_apply (h : CanonField) (ks : List String) :
    ∀ (i : ℕ) (fd : Found), scanCells fd i ks h = optOr (fd h) (firstSatP h ks i) := by
  induction ks with
  | nil => intro i fd; simp [scanCells, firstSatP, optOr_none]
  | cons k t ih =>
    intro i fd
    simp only [scanCells, firstSatP]
    rw [ih, processCell_apply, optOr_assoc]
    by_cases hs : satisfies h k <;> simp [hs, optOr]

theorem firstSatP_isSome_iff (h : CanonField) (l : List String) :
    ∀ i : ℕ, (firstSatP h l i).isSome ↔ ∃ k ∈ l, satisfies h k = true := by
  induction l with
  | nil => intro i; simp [firstSatP]
  | cons k t ih =>
    intro i
    by_cases hs : satisfies h k
    · simp [firstSatP, hs]
    · have e : firstSatP h (k :: t) i = firstSatP h t (i + 1) := by simp [firstSatP, hs]
      rw [e, ih]
      simp [hs]

theorem firstSatP_shift (h : CanonField) (l : List String) :
    ∀ i : ℕ, firstSatP h l (i + 1) = (firstSatP h l i).map (fun n => n + 1) := by
  induction l with
  | nil => intro i; rfl
  | cons k t ih =>
    intro i
    by_cases hs : satisfies h k
    · simp [firstSatP, hs]
    · simp only [firstSatP, hs, if_false]
      exact ih (i + 1)

theorem firstSatP_zero_spec (h : CanonField) (l : List String) :
    ∀ j : ℕ, firstSatP h l 0 = some j →
      j < l.length ∧ satisfies h (l.getD j "") = true ∧
        ∀ m, m < j → satisfies h (l.getD m "") = false := by
  induction l with
  | nil => intro j hj; cases hj
  | cons k t ih =>
    intro j hj
    by_cases hs : satisfies h k
    · simp only [firstSatP, hs, if_true, Option.some.injEq] at hj
      subst hj
      exact ⟨Nat.succ_pos _, hs, fun m hm => absurd hm (Nat.not_lt_zero m)⟩
    · simp only [firstSatP, hs, if_false] at hj
      rw [firstSatP_shift] at hj
      rcases Option.map_eq_some'.mp hj with ⟨j0, hj0, rfl⟩
      rcases ih j0 hj0 with ⟨hlen, hsat, hbefore⟩
      refine ⟨by simpa using hlen, by simpa using hsat, ?_⟩
      intro m hm
      cases m with
      | zero => simpa using hs
      | succ m0 => simpa using hbefore m0 (by omega)

theorem mkMapping_isSome_iff (fd : Found) :
    (mkMapping fd).isSome ↔ ∀ f ∈ CANON_FIELDS, (fd f).isSome := by
  unfold mkMapping
  split_ifs with hall
  · simpa using hall
  · simpa using hall

theorem mkMapping_get (fd : Found) (m : HeaderMapping) (hm : mkMapping fd = some m)
    (h : CanonField) : fd h = some (m.get h) := by
  unfold mkMapping at hm
  split_ifs at hm with hall
  rw [Option.some.injEq] at hm
  subst hm
  cases h <;> simp [HeaderMapping.get]

theorem looks_header_row_found (row : List String) (m : HeaderMapping)
    (hm : looks_header_row row = some m) (h : CanonField) :
    firstSatP h (row.map norm_key) 0 = some (m.get h) := by
  have := mkMapping_get _ m hm h
  rw [scanCells_apply] at this
  simpa [initFound, optOr] using this

theorem scanCells_init (h : CanonField) (ks : List String) :
    scanCells initFound 0 ks h = firstSatP h ks 0 := by
  rw [scanCells_apply]
  rfl

/-- Claim C2: `matchHeader` returns a mapping exactly when every one of the
six canonical fields resolves to some column via exact alias or substring
fallback matching; when even one field fails to resolve it returns no match,
never a partial mapping. -/
theorem claim_C2_header_all_or_nothing (row : List String) :
    (∃ m, looks_header_row row = some m) ↔
      ∀ h : CanonField, ∃ k ∈ row.map norm_key, satisfies h k = true := by
  rw [← Option.isSome_iff_exists]
  unfold looks_header_row
  rw [mkMapping_isSome_iff]
  constructor
  · intro hall h
    rw [← firstSatP_isSome_iff h (row.map norm_key) 0, ← scanCells_init]
    exact hall h (mem_CANON_FIELDS h)
  · intro hex f _
    rw [scanCells_init, firstSatP_isSome_iff]
    exact hex f

/-- Witness for claim C2 at the canonical header row. -/
theorem claim_C2_header_all_or_nothing_witness :
    ∃ m, looks_header_row ["ITEM", "CÓD. BK", "CÓD. CLIENTE", "DESCRIÇÃO", "QUANT.", "UN."]
      = some m :=
  (claim_C2_header_all_or_nothing
    ["ITEM", "CÓD. BK", "CÓD. CLIENTE", "DESCRIÇÃO", "QUANT.", "UN."]).mpr
    (fun h => by cases h <;> decide)

/-- Claim C8: the mapping returned by `matchHeader` assigns each canonical
field to the leftmost column whose normalized key satisfies it — the assigned
column satisfies the field and every earlier column does not — so the result
is a deterministic function of the row. -/
theorem claim_C8_leftmost_match (row : List String) (m : HeaderMapping)
    (hm : looks_header_row row = some m) (h : CanonField) :
    m.get h < (row.map norm_key).length ∧
      satisfies h ((row.map norm_key).getD (m.get h) "") = true ∧
      ∀ j, j < m.get h → satisfies h ((row.map norm_key).getD j "") = false :=
  firstSatP_zero_spec h (row.map norm_key) (m.get h) (looks_header_row_found row m hm h)

/-- Witness for claim C8: a row in which column 0 carries a stray token, so
the QUANT. field resolves to its leftmost satisfying column, column 5. -/
theorem claim_C8_leftmost_match_witness :
    looks_header_row ["x", "ITEM", "CÓD. BK", "CÓD. CLIENTE", "DESCRIÇÃO", "QUANT.", "UN."]
        = some ⟨1, 2, 3, 4, 5, 6⟩ ∧
      (HeaderMapping.get ⟨1, 2, 3, 4, 5, 6⟩ CanonField.quant
          < (["x", "ITEM", "CÓD. BK", "CÓD. CLIENTE", "DESCRIÇÃO", "QUANT.", "UN."].map norm_key).length ∧
        satisfies CanonField.quant
            ((["x", "ITEM", "CÓD. BK", "CÓD. CLIENTE", "DESCRIÇÃO", "QUANT.", "UN."].map norm_key).getD
              (HeaderMapping.get ⟨1, 2, 3, 4, 5, 6⟩ CanonField.quant) "") = true ∧
        ∀ j, j < HeaderMapping.get ⟨1, 2, 3, 4, 5, 6⟩ CanonField.quant →
          satisfies CanonField.quant
            ((["x", "ITEM", "CÓD. BK", "CÓD. CLIENTE", "DESCRIÇÃO", "QUANT.", "UN."].map norm_key).getD
              j "") = false) :=
  ⟨by decide,
   claim_C8_leftmost_match ["x", "ITEM", "CÓD. BK", "CÓD. CLIENTE", "DESCRIÇÃO", "QUANT.", "UN."]
     ⟨1, 2, 3, 4, 5, 6⟩ (by decide) CanonField.quant⟩

/-! ## Lemmas about the locale number parser (claim C6) -/

theorem digitsVal_append_singleton (l : List Char) (c : Char) :
    digitsVal (l ++ [c]) = digitsVal l * 10 + (c.toNat - '0'.toNat) := by
  simp [digitsVal, List.foldl_append]

theorem digitChar_mem (d : ℕ) :
    digitChar d ∈ ['0', '1', '2', '3', '4', '5', '6', '7', '8', '9'] := by
  rcases d with _|_|_|_|_|_|_|_|_|d
  · decide
  · decide
  · decide
  · decide
  · decide
  · decide
  · decide
  · decide
  · decide
  · show ('9' : Char) ∈ _
    decide

theorem digit_mem_class (c : Char)
    (hc : c ∈ ['0', '1', '2', '3', '4', '5', '6', '7', '8', '9']) :
    isDigitCh c = true ∧ pySpaceChar c = false ∧ c ≠ nbsp ∧ c ≠ ',' ∧ c ≠ '.' ∧
      c ≠ '-' ∧ c ≠ '+' ∧ c ≠ ' ' ∧ c ≠ 'e' ∧ c ≠ 'E' := by
  fin_cases hc <;> decide

theorem digitChar_toNat (d : ℕ) (hd : d < 10) : (digitChar d).toNat = 48 + d := by
  interval_cases d <;> decide

theorem digitsVal_natDigitsAux :
    ∀ fuel n : ℕ, n ≤ fuel → digitsVal ((natDigitsAux fuel n).reverse.map digitChar) = n := by
  intro fuel
  induction fuel with
  | zero =>
    intro n hn
    interval_cases n
    rfl
  | succ f ih =>
    intro n hn
    by_cases h0 : n = 0
    · subst h0; rfl
    · have hdiv : n / 10 < n := Nat.div_lt_self (Nat.pos_of_ne_zero h0) (by norm_num)
      simp only [natDigitsAux, h0, if_false, List.reverse_cons, List.map_append,
        List.map_cons, List.map_nil]
      rw [digitsVal_append_singleton, ih (n / 10) (by omega),
        digitChar_toNat _ (Nat.mod_lt _ (by norm_num)),
        show '0'.toNat = 48 from rfl]
      omega

theorem digitsVal_natReprChars (n : ℕ) : digitsVal (natReprChars n) = n := by
  unfold natReprChars natDigits
  by_cases h0 : n = 0
  · subst h0; decide
  · simp only [h0, if_false]
    exact digitsVal_natDigitsAux n n le_rfl

theorem natDigitsAux_lt_ten :
    ∀ fuel n : ℕ, ∀ d ∈ natDigitsAux fuel n, d < 10 := by
  intro fuel
  induction fuel with
  | zero => intro n d hd; cases hd
  | succ f ih =>
    intro n d hd
    by_cases h0 : n = 0
    · simp [natDigitsAux, h0] at hd
    · simp only [natDigitsAux, h0, if_false, List.mem_cons] at hd
      rcases hd with h | h
      · subst h; exact Nat.mod_lt _ (by norm_num)
      · exact ih _ d h

theorem natReprChars_mem (n : ℕ) :
    ∀ c ∈ natReprChars n, c ∈ ['0', '1', '2', '3', '4', '5', '6', '7', '8', '9'] := by
  intro c hc
  unfold natReprChars at hc
  by_cases h0 : n = 0
  · simp only [h0, if_true] at hc
    simp only [List.mem_singleton] at hc
    subst hc; decide
  · simp only [h0, if_false] at hc
    rcases List.mem_map.mp (by simpa using hc) with ⟨d, _, rfl⟩
    exact digitChar_mem d

theorem natReprChars_ne_nil (n : ℕ) : natReprChars n ≠ [] := by
  unfold natReprChars
  by_cases h0 : n = 0
  · simp [h0]
  · rcases n with _ | m
    · exact absurd rfl h0
    · simp [natDigits, natDigitsAux]

theorem takeWhile_append_all (p : Char → Bool) (l r : List Char)
    (h : ∀ c ∈ l, p c = true) : (l ++ r).takeWhile p = l ++ r.takeWhile p := by
  induction l with
  | nil => rfl
  | cons a t ih =>
    have ha := h a (List.mem_cons_self a t)
    simp only [List.cons_append, List.takeWhile_cons, ha, if_true]
    rw [ih (fun c hc => h c (List.mem_cons_of_mem a hc))]

theorem dropWhile_append_all (p : Char → Bool) (l r : List Char)
    (h : ∀ c ∈ l, p c = true) : (l ++ r).dropWhile p = r.dropWhile p := by
  induction l with
  | nil => rfl
  | cons a t ih =>
    have ha := h a (List.mem_cons_self a t)
    simp only [List.cons_append, List.dropWhile_cons, ha, if_true]
    exact ih (fun c hc => h c (List.mem_cons_of_mem a hc))

theorem string_mk_toList (s : String) : String.mk s.toList = s := rfl

theorem pyFloatTail_dot_zero (neg : Bool) (ip : List Char) (hip : ip ≠ []) :
    pyFloatTail neg ip ['.', '0'] = some ((if neg then (-1 : ℚ) else 1) * (digitsVal ip : ℚ)) := by
  simp +decide only [pyFloatTail]
  simp [hip]
  cases neg <;> norm_num <;> rfl

theorem pyFloat_digits_dot_zero (c0 : Char) (cs : List Char)
    (hd : ∀ c ∈ c0 :: cs, c ∈ ['0', '1', '2', '3', '4', '5', '6', '7', '8', '9']) :
    pyFloat ((c0 :: cs) ++ ['.', '0']) = some ((digitsVal (c0 :: cs) : ℚ)) := by
  have hc0 := digit_mem_class c0 (hd c0 (List.mem_cons_self c0 cs))
  have hhead : ((c0 :: cs) ++ ['.', '0']).head? = some c0 := rfl
  have hsign : ¬(((c0 :: cs) ++ ['.', '0']).head? = some '-' ∨
      ((c0 :: cs) ++ ['.', '0']).head? = some '+') := by
    rw [hhead]
    simp [hc0.2.2.2.2.2.1, hc0.2.2.2.2.2.2.1]
  have htake : ((c0 :: cs) ++ ['.', '0']).takeWhile isDigitCh = c0 :: cs := by
    rw [takeWhile_append_all _ _ _ (fun c hc => (digit_mem_class c (hd c hc)).1)]
    simp +decide
  have hdrop : ((c0 :: cs) ++ ['.', '0']).dropWhile isDigitCh = ['.', '0'] := by
    rw [dropWhile_append_all _ _ _ (fun c hc => (digit_mem_class c (hd c hc)).1)]
    decide
  rw [show pyFloat ((c0 :: cs) ++ ['.', '0'])
      = pyFloatTail (decide (((c0 :: cs) ++ ['.', '0']).head? = some '-'))
          ((if ((c0 :: cs) ++ ['.', '0']).head? = some '-' ∨
               ((c0 :: cs) ++ ['.', '0']).head? = some '+' then
              ((c0 :: cs) ++ ['.', '0']).tail else (c0 :: cs) ++ ['.', '0']).takeWhile isDigitCh)
          ((if ((c0 :: cs) ++ ['.', '0']).head? = some '-' ∨
               ((c0 :: cs) ++ ['.', '0']).head? = some '+' then
              ((c0 :: cs) ++ ['.', '0']).tail else (c0 :: cs) ++ ['.', '0']).dropWhile isDigitCh)
      from rfl]
  rw [if_neg hsign, htake, hdrop]
  rw [show (decide (((c0 :: cs) ++ ['.', '0']).head? = some '-')) = false by
    rw [hhead]
    simp [hc0.2.2.2.2.2.1]]
  rw [pyFloatTail_dot_zero false (c0 :: cs) (List.cons_ne_nil c0 cs)]
  norm_num

theorem pyFloat_neg_digits_dot_zero (c0 : Char) (cs : List Char)
    (hd : ∀ c ∈ c0 :: cs, c ∈ ['0', '1', '2', '3', '4', '5', '6', '7', '8', '9']) :
    pyFloat ('-' :: ((c0 :: cs) ++ ['.', '0'])) = some (-(digitsVal (c0 :: cs) : ℚ)) := by
  have htake : ((c0 :: cs) ++ ['.', '0']).takeWhile isDigitCh = c0 :: cs := by
    rw [takeWhile_append_all _ _ _ (fun c hc => (digit_mem_class c (hd c hc)).1)]
    simp +decide
  have hdrop : ((c0 :: cs) ++ ['.', '0']).dropWhile isDigitCh = ['.', '0'] := by
    rw [dropWhile_append_all _ _ _ (fun c hc => (digit_mem_class c (hd c hc)).1)]
    decide
  rw [show pyFloat ('-' :: ((c0 :: cs) ++ ['.', '0']))
      = pyFloatTail (decide (('-' :: ((c0 :: cs) ++ ['.', '0'])).head? = some '-'))
          ((if ('-' :: ((c0 :: cs) ++ ['.', '0'])).head? = some '-' ∨
               ('-' :: ((c0 :: cs) ++ ['.', '0'])).head? = some '+' then
              ('-' :: ((c0 :: cs) ++ ['.', '0'])).tail
            else '-' :: ((c0 :: cs) ++ ['.', '0'])).takeWhile isDigitCh)
          ((if ('-' :: ((c0 :: cs) ++ ['.', '0'])).head? = some '-' ∨
               ('-' :: ((c0 :: cs) ++ ['.', '0'])).head? = some '+' then
              ('-' :: ((c0 :: cs) ++ ['.', '0'])).tail
            else '-' :: ((c0 :: cs) ++ ['.', '0'])).dropWhile isDigitCh)
      from rfl]
  rw [if_pos (Or.inl (show ('-' :: ((c0 :: cs) ++ ['.', '0'])).head? = some '-' from rfl))]
  rw [show ('-' :: ((c0 :: cs) ++ ['.', '0'])).tail = (c0 :: cs) ++ ['.', '0'] from rfl]
  rw [htake, hdrop]
  rw [show (decide (('-' :: ((c0 :: cs) ++ ['.', '0'])).head? = some '-')) = true from rfl]
  rw [pyFloatTail_dot_zero true (c0 :: cs) (List.cons_ne_nil c0 cs)]
  norm_num

theorem wordsAux_no_space (l : List Char) : ∀ acc : List Char,
    (∀ c ∈ l, pySpaceChar c = false) →
    wordsAux l acc = if acc.reverse ++ l = [] then [] else [acc.reverse ++ l] := by
  induction l with
  | nil =>
    intro acc _
    cases acc <;> simp [wordsAux]
  | cons c cs ih =>
    intro acc h
    have hc := h c (List.mem_cons_self c cs)
    simp only [wordsAux, hc, Bool.false_eq_true, if_false]
    rw [ih (c :: acc) (fun x hx => h x (List.mem_cons_of_mem c hx))]
    rw [show (c :: acc).reverse ++ cs = acc.reverse ++ c :: cs by simp]

theorem normCell_of_no_space (s : String)
    (h : ∀ c ∈ s.toList, pySpaceChar c = false ∧ c ≠ nbsp) : normCell s = s := by
  unfold normCell
  have hmap : s.toList.map (fun c => if c = nbsp then ' ' else c) = s.toList := by
    have hcong : ∀ c ∈ s.toList, (if c = nbsp then ' ' else c) = id c := by
      intro c hc
      simp [(h c hc).2]
    rw [List.map_congr_left hcong, List.map_id]
  rw [hmap, wordsAux_no_space _ [] (fun c hc => (h c hc).1)]
  conv_rhs => rw [← string_mk_toList s]
  by_cases he : s.toList = []
  · rw [he]
    rfl
  · rw [if_neg (by simpa using he)]
    rfl

theorem intReprChars_facts (n : ℤ) :
    ∀ c ∈ intReprChars n ++ ['.', '0'],
      pySpaceChar c = false ∧ c ≠ nbsp ∧ c ≠ ',' ∧ c ≠ ' ' := by
  intro c hc
  rcases List.mem_append.mp hc with hc2 | hc2
  · unfold intReprChars at hc2
    rcases List.mem_append.mp hc2 with hc3 | hc3
    · by_cases hn : n < 0
      · simp only [hn, if_true, List.mem_singleton] at hc3
        subst hc3
        decide
      · simp [hn] at hc3
    · have hmem := natReprChars_mem n.natAbs c hc3
      have hcl := digit_mem_class c hmem
      exact ⟨hcl.2.1, hcl.2.2.1, hcl.2.2.2.1, hcl.2.2.2.2.2.2.2.1⟩
  · fin_cases hc2 <;> decide

theorem to_float_br_intRepr (n : ℤ) : to_float_br (pyFloatIntRepr n) = (n : ℚ) := by
  have hfor := intReprChars_facts n
  have htl : (pyFloatIntRepr n).toList = intReprChars n ++ ['.', '0'] := rfl
  unfold to_float_br
  have hnorm : normCell (pyFloatIntRepr n) = pyFloatIntRepr n := by
    apply normCell_of_no_space
    intro c hc
    rw [htl] at hc
    exact ⟨(hfor c hc).1, (hfor c hc).2.1⟩
  rw [hnorm]
  have hne : pyFloatIntRepr n ≠ "" := by
    intro hcon
    have := congrArg String.toList hcon
    rw [htl] at this
    simp at this
  rw [if_neg hne]
  have hfilter : (pyFloatIntRepr n).toList.filter (fun c => c ≠ ' ')
      = intReprChars n ++ ['.', '0'] := by
    rw [htl]
    apply List.filter_eq_self.mpr
    intro a ha
    simpa using (hfor a ha).2.2.2
  rw [hfilter]
  have hcontains : (intReprChars n ++ ['.', '0']).contains ',' = false := by
    rcases e : (intReprChars n ++ ['.', '0']).contains ',' with _ | _
    · rfl
    · have hmem : ',' ∈ intReprChars n ++ ['.', '0'] := by simpa using e
      exact absurd rfl (hfor ',' hmem).2.2.1
  simp only [hcontains, Bool.false_eq_true, if_false]
  by_cases hn : n < 0
  · rcases e : natReprChars n.natAbs with _ | ⟨c0, cs⟩
    · exact absurd e (natReprChars_ne_nil n.natAbs)
    · have hshape : intReprChars n ++ ['.', '0'] = '-' :: ((c0 :: cs) ++ ['.', '0']) := by
        unfold intReprChars
        rw [e]
        simp [hn]
      rw [hshape, pyFloat_neg_digits_dot_zero c0 cs (by rw [← e]; exact natReprChars_mem n.natAbs)]
      show -(digitsVal (c0 :: cs) : ℚ) = (n : ℚ)
      rw [← e, digitsVal_natReprChars, Int.cast_natAbs, abs_of_neg hn]
      push_cast
      ring
  · rcases e : natReprChars n.natAbs with _ | ⟨c0, cs⟩
    · exact absurd e (natReprChars_ne_nil n.natAbs)
    · have hshape : intReprChars n ++ ['.', '0'] = (c0 :: cs) ++ ['.', '0'] := by
        unfold intReprChars
        rw [e]
        simp [hn]
      rw [hshape, pyFloat_digits_dot_zero c0 cs (by rw [← e]; exact natReprChars_mem n.natAbs)]
      show (digitsVal (c0 :: cs) : ℚ) = (n : ℚ)
      rw [← e, digitsVal_natReprChars, Int.cast_natAbs, abs_of_nonneg (not_lt.mp hn)]

/-- Claim C6: the locale number parser satisfies the spec's concrete
equations, is idempotent on the textual rendering of its own integer outputs,
and is total (it is a Lean function into `ℚ`, returning `0` on parse
failure). -/
theorem claim_C6_to_float_br :
    to_float_br "1.234,56" = (1234.56 : ℚ) ∧
      to_float_br "" = 0 ∧
      to_float_br "abc" = 0 ∧
      ∀ x : String, (to_float_br x).den = 1 →
        to_float_br (pyFloatIntRepr (to_float_br x).num) = to_float_br x := by
  refine ⟨?_, ?_, ?_, ?_⟩
  · simp +decide [to_float_br, pyFloat, pyFloatTail, normCell, wordsAux, joinWords, digitsVal]
    norm_num
  · simp +decide [to_float_br, normCell, wordsAux, joinWords]
  · simp +decide [to_float_br, pyFloat, pyFloatTail, normCell, wordsAux, joinWords]
  · intro x hden
    rw [to_float_br_intRepr]
    conv_rhs => rw [← Rat.num_div_den (to_float_br x)]
    rw [hden]
    norm_num

/-- Witness for claim C6: the integer output for input `"7"` round-trips
through its textual rendering. -/
theorem claim_C6_to_float_br_witness :
    (to_float_br "7").den = 1 ∧
      to_float_br (pyFloatIntRepr (to_float_br "7").num) = to_float_br "7" :=
  ⟨by simp +decide [to_float_br, pyFloat, pyFloatTail, normCell, wordsAux, joinWords, digitsVal],
   claim_C6_to_float_br.2.2.2 "7"
     (by simp +decide [to_float_br, pyFloat, pyFloatTail, normCell, wordsAux, joinWords, digitsVal])⟩

/-! ## Lemmas about the Block Parser (claims C3, C4, C9, C10) -/

theorem norm_key_of_normCell_empty (c : String) (h : normCell c = "") : norm_key c = "" := by
  unfold norm_key
  rw [h]
  rfl

theorem firstSatP_all_empty (h : CanonField) (ks : List String)
    (hall : ∀ k ∈ ks, k = "") : ∀ i : ℕ, firstSatP h ks i = none := by
  induction ks with
  | nil => intro i; rfl
  | cons k t ih =>
    intro i
    have hk : k = "" := hall k (List.mem_cons_self k t)
    subst hk
    simp only [firstSatP, satisfies_empty, Bool.false_eq_true, if_false]
    exact ih (fun x hx => hall x (List.mem_cons_of_mem _ hx)) (i + 1)

/-- A fully blank row can never be recognized as a header row. -/
theorem blank_row_not_header (r : List String) (hb : is_blank_row r = true) :
    looks_header_row r = none := by
  have hb2 : ∀ c ∈ r, normCell c = "" := by
    simpa [is_blank_row, List.all_eq_true] using hb
  have hall : ∀ k ∈ r.map norm_key, k = "" := by
    intro k hk
    rcases List.mem_map.mp hk with ⟨c, hc, rfl⟩
    exact norm_key_of_normCell_empty c (hb2 c hc)
  rw [← Option.not_isSome_iff_eq_none]
  unfold looks_header_row
  rw [mkMapping_isSome_iff]
  intro hcon
  have := hcon CanonField.item (mem_CANON_FIELDS _)
  rw [scanCells_init, firstSatP_all_empty CanonField.item _ hall 0] at this
  cases this

theorem extractRow_fields (fonte sheet title : String) (bloco : ℕ)
    (mapping : HeaderMapping) (maxCols : ℕ) (r : List String) (d : DetailRow)
    (h : extractRow fonte sheet title bloco mapping maxCols r = some d) :
    d.arquivo = fonte ∧ d.aba = sheet ∧ d.desenho = title ∧ d.bloco = bloco ∧
      normCell d.descricao ≠ "" := by
  simp only [extractRow] at h
  split_ifs at h with hg
  rw [Option.some.injEq] at h
  subst h
  exact ⟨rfl, rfl, rfl, rfl, hg⟩

theorem innerLoop_fst_ge (matrix : List (List String)) (maxCols : ℕ)
    (fonte sheet title : String) (bloco : ℕ) (mapping : HeaderMapping) :
    ∀ fuel i blank : ℕ,
      i ≤ (innerLoop matrix maxCols fonte sheet title bloco mapping fuel i blank).1 := by
  intro fuel
  induction fuel with
  | zero => intro i blank; exact le_refl i
  | succ f ih =>
    intro i blank
    simp only [innerLoop]
    by_cases hi : i < matrix.length
    · rw [if_pos hi]
      by_cases hh : (looks_header_row (matrix.getD i [])).isSome = true
      · rw [if_pos hh]
      · rw [if_neg hh]
        by_cases hb : is_blank_row (matrix.getD i []) = true
        · rw [if_pos hb]
          by_cases h2 : blank + 1 ≥ 2
          · rw [if_pos h2]
          · rw [if_neg h2]
            exact le_trans (Nat.le_succ i) (ih (i + 1) (blank + 1))
        · rw [if_neg hb]
          exact le_trans (Nat.le_succ i) (ih (i + 1) 0)
    · rw [if_neg hi]

theorem innerLoop_header_break (matrix : List (List String)) (maxCols : ℕ)
    (fonte sheet title : String) (bloco : ℕ) (mapping : HeaderMapping)
    (fuel i blank : ℕ) (hi : i < matrix.length)
    (hh : (looks_header_row (matrix.getD i [])).isSome = true) :
    innerLoop matrix maxCols fonte sheet title bloco mapping fuel i blank = (i, []) := by
  cases fuel with
  | zero => rfl
  | succ f =>
    simp only [innerLoop]
    rw [if_pos hi, if_pos hh]

theorem outerLoop_header_step (matrix : List (List String)) (maxCols : ℕ)
    (fonte sheet fallback : String) (fuel i bloco : ℕ) (mapping : HeaderMapping)
    (hi : i < matrix.length) (hm : looks_header_row (matrix.getD i []) = some mapping) :
    outerLoop matrix maxCols fonte sheet fallback (fuel + 1) i bloco =
      (innerLoop matrix maxCols fonte sheet (resolveTitle matrix i fallback) (bloco + 1)
          mapping matrix.length (i + 1) 0).2 ++
        outerLoop matrix maxCols fonte sheet fallback fuel
          (innerLoop matrix maxCols fonte sheet (resolveTitle matrix i fallback) (bloco + 1)
              mapping matrix.length (i + 1) 0).1 (bloco + 1) := by
  simp only [outerLoop]
  rw [if_pos hi, hm]

theorem outerLoop_skip (matrix : List (List String)) (maxCols : ℕ)
    (fonte sheet fallback : String) (fuel i bloco : ℕ)
    (hi : i < matrix.length) (hm : looks_header_row (matrix.getD i []) = none) :
    outerLoop matrix maxCols fonte sheet fallback (fuel + 1) i bloco =
      outerLoop matrix maxCols fonte sheet fallback fuel (i + 1) bloco := by
  simp only [outerLoop]
  rw [if_pos hi, hm]

theorem outerLoop_out_of_range (matrix : List (List String)) (maxCols : ℕ)
    (fonte sheet fallback : String) (fuel i bloco : ℕ) (hi : ¬ i < matrix.length) :
    outerLoop matrix maxCols fonte sheet fallback fuel i bloco = [] := by
  cases fuel with
  | zero => rfl
  | succ f =>
    simp only [outerLoop]
    rw [if_neg hi]

theorem outerLoop_succ_stable (matrix : List (List String)) (maxCols : ℕ)
    (fonte sheet fallback : String) :
    ∀ fuel i bloco : ℕ, matrix.length ≤ i + fuel →
      outerLoop matrix maxCols fonte sheet fallback (fuel + 1) i bloco =
        outerLoop matrix maxCols fonte sheet fallback fuel i bloco := by
  intro fuel
  induction fuel with
  | zero =>
    intro i bloco h
    have hi : ¬ i < matrix.length := by omega
    rw [outerLoop_out_of_range _ _ _ _ _ _ _ _ hi, outerLoop_out_of_range _ _ _ _ _ _ _ _ hi]
  | succ f ih =>
    intro i bloco h
    by_cases hi : i < matrix.length
    · cases hm : looks_header_row (matrix.getD i []) with
      | some mapping =>
        rw [outerLoop_header_step _ _ _ _ _ _ _ _ _ hi hm,
          outerLoop_header_step _ _ _ _ _ _ _ _ _ hi hm]
        congr 1
        apply ih
        have := innerLoop_fst_ge matrix maxCols fonte sheet
          (resolveTitle matrix i fallback) (bloco + 1) mapping matrix.length (i + 1) 0
        omega
      | none =>
        rw [outerLoop_skip _ _ _ _ _ _ _ _ hi hm, outerLoop_skip _ _ _ _ _ _ _ _ hi hm]
        apply ih
        omega
    · rw [outerLoop_out_of_range _ _ _ _ _ _ _ _ hi, outerLoop_out_of_range _ _ _ _ _ _ _ _ hi]

theorem outerLoop_add_stable (matrix : List (List String)) (maxCols : ℕ)
    (fonte sheet fallback : String) :
    ∀ (k fuel i bloco : ℕ), matrix.length ≤ i + fuel →
      outerLoop matrix maxCols fonte sheet fallback (fuel + k) i bloco =
        outerLoop matrix maxCols fonte sheet fallback fuel i bloco := by
  intro k
  induction k with
  | zero => intro fuel i bloco _; rfl
  | succ m ih =>
    intro fuel i bloco h
    have h1 : outerLoop matrix maxCols fonte sheet fallback (fuel + m + 1) i bloco
        = outerLoop matrix maxCols fonte sheet fallback (fuel + m) i bloco :=
      outerLoop_succ_stable matrix maxCols fonte sheet fallback (fuel + m) i bloco (by omega)
    calc outerLoop matrix maxCols fonte sheet fallback (fuel + (m + 1)) i bloco
        = outerLoop matrix maxCols fonte sheet fallback (fuel + m) i bloco := h1
      _ = outerLoop matrix maxCols fonte sheet fallback fuel i bloco := ih fuel i bloco h

theorem outerLoop_fuel_stable (matrix : List (List String)) (maxCols : ℕ)
    (fonte sheet fallback : String) (f1 f2 i bloco : ℕ)
    (h1 : matrix.length ≤ i + f1) (h2 : matrix.length ≤ i + f2) :
    outerLoop matrix maxCols fonte sheet fallback f1 i bloco =
      outerLoop matrix maxCols fonte sheet fallback f2 i bloco := by
  rcases Nat.le_total f1 f2 with hle | hle
  · rw [show f2 = f1 + (f2 - f1) by omega]
    exact (outerLoop_add_stable matrix maxCols fonte sheet fallback (f2 - f1) f1 i bloco h1).symm
  · rw [show f1 = f2 + (f1 - f2) by omega]
    exact outerLoop_add_stable matrix maxCols fonte sheet fallback (f1 - f2) f2 i bloco h2

/-- Claim C9: `parse_blocks` is a terminating single pass — the inner loop
never moves the row index backwards, so every outer iteration strictly
advances it, and the loop's result is stable under any fuel of at least one
unit per row (in particular the fuel `matrix.length` used by `parse_blocks`
suffices). -/
theorem claim_C9_parse_terminates (matrix : List (List String)) (maxCols : ℕ)
    (fonte sheet fallback : String) :
    (∀ (title : String) (bloco : ℕ) (mapping : HeaderMapping) (fuel i blank : ℕ),
        i ≤ (innerLoop matrix maxCols fonte sheet title bloco mapping fuel i blank).1)
    ∧ (∀ (title : String) (bloco : ℕ) (mapping : HeaderMapping) (fuel i blank : ℕ),
        i < (innerLoop matrix maxCols fonte sheet title bloco mapping fuel (i + 1) blank).1)
    ∧ (∀ f1 f2 i bloco : ℕ, matrix.length ≤ i + f1 → matrix.length ≤ i + f2 →
        outerLoop matrix maxCols fonte sheet fallback f1 i bloco =
          outerLoop matrix maxCols fonte sheet fallback f2 i bloco)
    ∧ (∀ (grid : List (List String)) (fuel : ℕ),
        grid.map (fun row => row.map normCell) = matrix → matrix.length ≤ fuel →
        parse_blocks grid maxCols fonte sheet fallback =
          outerLoop matrix maxCols fonte sheet fallback fuel 0 0) := by
  refine ⟨fun title bloco mapping fuel i blank =>
      innerLoop_fst_ge matrix maxCols fonte sheet title bloco mapping fuel i blank,
    fun title bloco mapping fuel i blank =>
      lt_of_lt_of_le (Nat.lt_succ_self i)
        (innerLoop_fst_ge matrix maxCols fonte sheet title bloco mapping fuel (i + 1) blank),
    fun f1 f2 i bloco h1 h2 =>
      outerLoop_fuel_stable matrix maxCols fonte sheet fallback f1 f2 i bloco h1 h2, ?_⟩
  intro grid fuel hgrid hfuel
  unfold parse_blocks
  rw [hgrid]
  exact outerLoop_fuel_stable matrix maxCols fonte sheet fallback matrix.length fuel 0 0
    (by omega) (by omega)

/-- Witness for claim C9 on a small concrete grid. -/
theorem claim_C9_parse_terminates_witness :
    parse_blocks [["x"], ["y"]] 1 "f" "s" "" =
      outerLoop [["x"], ["y"]] 1 "f" "s" "" 7 0 0 :=
  (claim_C9_parse_terminates [["x"], ["y"]] 1 "f" "s" "").2.2.2 [["x"], ["y"]] 7
    (by decide) (by decide)

/-- Claim C3: inside a block, two consecutive fully-blank rows terminate the
block (no row is emitted for them, the index stops at the second blank row,
and the outer scan — for which a blank row can never be a header — resumes
from the row after the blank pair), while a single blank row followed by a
non-blank data row does not terminate the block and resets the blank counter
to `0`. -/
theorem claim_C3_blank_pair_rules (matrix : List (List String)) (maxCols : ℕ)
    (fonte sheet title : String) (bloco : ℕ) (mapping : HeaderMapping) (fuel i : ℕ)
    (hlen : i + 1 < matrix.length)
    (hb1 : is_blank_row (matrix.getD i []) = true) :
    (is_blank_row (matrix.getD (i + 1) []) = true →
        innerLoop matrix maxCols fonte sheet title bloco mapping (fuel + 1 + 1) i 0 = (i + 1, [])
        ∧ ∀ (fallback : String) (fuel2 bloco2 : ℕ),
            outerLoop matrix maxCols fonte sheet fallback (fuel2 + 1) (i + 1) bloco2 =
              outerLoop matrix maxCols fonte sheet fallback fuel2 (i + 1 + 1) bloco2)
    ∧ (is_blank_row (matrix.getD (i + 1) []) = false →
        looks_header_row (matrix.getD (i + 1) []) = none →
        innerLoop matrix maxCols fonte sheet title bloco mapping (fuel + 1 + 1) i 0 =
          ((innerLoop matrix maxCols fonte sheet title bloco mapping fuel (i + 1 + 1) 0).1,
            (extractRow fonte sheet title bloco mapping maxCols (matrix.getD (i + 1) [])).toList
              ++ (innerLoop matrix maxCols fonte sheet title bloco mapping fuel (i + 1 + 1) 0).2)) := by
  have hi : i < matrix.length := by omega
  have hh1 : ¬ (looks_header_row (matrix.getD i [])).isSome = true := by
    rw [blank_row_not_header _ hb1]
    simp
  constructor
  · intro hb2
    have hh2 : ¬ (looks_header_row (matrix.getD (i + 1) [])).isSome = true := by
      rw [blank_row_not_header _ hb2]
      simp
    constructor
    · simp only [innerLoop]
      rw [if_pos hi, if_neg hh1, if_pos hb1, if_neg (show ¬ 0 + 1 ≥ 2 by omega)]
      rw [if_pos hlen, if_neg hh2, if_pos hb2, if_pos (show 0 + 1 + 1 ≥ 2 by omega)]
    · intro fallback fuel2 bloco2
      exact outerLoop_skip matrix maxCols fonte sheet fallback fuel2 (i + 1) bloco2 hlen
        (blank_row_not_header _ hb2)
  · intro hb2 hh2
    have hh2s : ¬ (looks_header_row (matrix.getD (i + 1) [])).isSome = true := by
      rw [hh2]
      simp
    simp only [innerLoop]
    rw [if_pos hi, if_neg hh1, if_pos hb1, if_neg (show ¬ 0 + 1 ≥ 2 by omega)]
    rw [if_pos hlen, if_neg hh2s, if_neg (show ¬ is_blank_row (matrix.getD (i + 1) []) = true by
      rw [hb2]
      simp)]

/-- Witness for claim C3: a blank pair at rows 0 and 1 ends the block at
row 1 with nothing emitted. -/
theorem claim_C3_blank_pair_rules_witness :
    innerLoop [[""], [""], ["x"]] 1 "f" "s" "t" 1 ⟨0, 0, 0, 0, 0, 0⟩ (0 + 1 + 1) 0 0
      = (1, []) :=
  (((claim_C3_blank_pair_rules [[""], [""], ["x"]] 1 "f" "s" "t" 1 ⟨0, 0, 0, 0, 0, 0⟩ 0 0
    (by decide) (by decide)).1) (by decide)).1

/-- Claim C4: a valid header row met while inside a block is never consumed
as a data row — the inner loop stops right before it emitting nothing for
it — and the outer scan then starts a new block with block counter `bloco+1`
whose body begins at the following row. -/
theorem claim_C4_header_starts_new_block (matrix : List (List String)) (maxCols : ℕ)
    (fonte sheet : String) (i : ℕ) (hi : i < matrix.length)
    (hh : (looks_header_row (matrix.getD i [])).isSome = true) :
    (∀ (title : String) (bloco : ℕ) (mapping : HeaderMapping) (fuel blank : ℕ),
        innerLoop matrix maxCols fonte sheet title bloco mapping fuel i blank = (i, []))
    ∧ (∀ (fallback : String) (fuel bloco : ℕ) (mapping : HeaderMapping),
        looks_header_row (matrix.getD i []) = some mapping →
        outerLoop matrix maxCols fonte sheet fallback (fuel + 1) i bloco =
          (innerLoop matrix maxCols fonte sheet (resolveTitle matrix i fallback) (bloco + 1)
              mapping matrix.length (i + 1) 0).2 ++
            outerLoop matrix maxCols fonte sheet fallback fuel
              (innerLoop matrix maxCols fonte sheet (resolveTitle matrix i fallback) (bloco + 1)
                  mapping matrix.length (i + 1) 0).1 (bloco + 1)) :=
  ⟨fun title bloco mapping fuel blank =>
      innerLoop_header_break matrix maxCols fonte sheet title bloco mapping fuel i blank hi hh,
    fun fallback fuel bloco mapping hm =>
      outerLoop_header_step matrix maxCols fonte sheet fallback fuel i bloco mapping hi hm⟩

/-- Witness for claim C4: the inner loop breaks at a header row without
emitting anything. -/
theorem claim_C4_header_starts_new_block_witness :
    innerLoop
      [["d", "", "", "x", "", ""],
       ["ITEM", "CÓD. BK", "CÓD. CLIENTE", "DESCRIÇÃO", "QUANT.", "UN."]]
      6 "f" "s" "t" 1 ⟨0, 1, 2, 3, 4, 5⟩ 5 1 0 = (1, []) :=
  (claim_C4_header_starts_new_block
    [["d", "", "", "x", "", ""],
     ["ITEM", "CÓD. BK", "CÓD. CLIENTE", "DESCRIÇÃO", "QUANT.", "UN."]]
    6 "f" "s" 1 (by decide) (by decide)).1 "t" 1 ⟨0, 1, 2, 3, 4, 5⟩ 5 0

theorem innerLoop_rows_bloco_title (matrix : List (List String)) (maxCols : ℕ)
    (fonte sheet title : String) (bloco : ℕ) (mapping : HeaderMapping) :
    ∀ (fuel i blank : ℕ) (r : DetailRow),
      r ∈ (innerLoop matrix maxCols fonte sheet title bloco mapping fuel i blank).2 →
      r.bloco = bloco ∧ r.desenho = title ∧ normCell r.descricao ≠ "" := by
  intro fuel
  induction fuel with
  | zero => intro i blank r hr; cases hr
  | succ f ih =>
    intro i blank r hr
    simp only [innerLoop] at hr
    by_cases hi : i < matrix.length
    · rw [if_pos hi] at hr
      by_cases hh : (looks_header_row (matrix.getD i [])).isSome = true
      · rw [if_pos hh] at hr
        cases hr
      · rw [if_neg hh] at hr
        by_cases hb : is_blank_row (matrix.getD i []) = true
        · rw [if_pos hb] at hr
          by_cases h2 : blank + 1 ≥ 2
          · rw [if_pos h2] at hr
            cases hr
          · rw [if_neg h2] at hr
            exact ih (i + 1) (blank + 1) r hr
        · rw [if_neg hb] at hr
          rcases List.mem_append.mp hr with hr2 | hr2
          · rcases e : extractRow fonte sheet title bloco mapping maxCols (matrix.getD i [])
              with _ | d
            · rw [e] at hr2
              cases hr2
            · rw [e] at hr2
              simp only [Option.toList_some, List.mem_singleton] at hr2
              rw [hr2]
              have := extractRow_fields fonte sheet title bloco mapping maxCols _ d e
              exact ⟨this.2.2.2.1, this.2.2.1, this.2.2.2.2⟩
          · exact ih (i + 1) 0 r hr2
    · rw [if_neg hi] at hr
      cases hr

theorem outerLoop_rows_bloco_gt (matrix : List (List String)) (maxCols : ℕ)
    (fonte sheet fallback : String) :
    ∀ (fuel i bloco : ℕ) (r : DetailRow),
      r ∈ outerLoop matrix maxCols fonte sheet fallback fuel i bloco →
      bloco + 1 ≤ r.bloco := by
  intro fuel
  induction fuel with
  | zero => intro i bloco r hr; cases hr
  | succ f ih =>
    intro i bloco r hr
    by_cases hi : i < matrix.length
    · cases hm : looks_header_row (matrix.getD i []) with
      | some mapping =>
        rw [outerLoop_header_step _ _ _ _ _ _ _ _ _ hi hm] at hr
        rcases List.mem_append.mp hr with hr2 | hr2
        · have := innerLoop_rows_bloco_title matrix maxCols fonte sheet
            (resolveTitle matrix i fallback) (bloco + 1) mapping matrix.length (i + 1) 0 r hr2
          omega
        · have := ih _ _ r hr2
          omega
      | none =>
        rw [outerLoop_skip _ _ _ _ _ _ _ _ hi hm] at hr
        exact ih _ _ r hr
    · rw [outerLoop_out_of_range _ _ _ _ _ _ _ _ hi] at hr
      cases hr

theorem chain_le_of_all_eq (c : ℕ) : ∀ l : List ℕ, (∀ x ∈ l, x = c) →
    l.Chain' (fun a b => a ≤ b) := by
  intro l
  induction l with
  | nil => intro _; exact List.chain'_nil
  | cons a t ih =>
    intro h
    cases t with
    | nil => exact List.chain'_singleton a
    | cons b t2 =>
      rw [List.chain'_cons]
      refine ⟨?_, ih ?_⟩
      · rw [h a (by simp), h b (by simp)]
      · intro x hx
        exact h x (List.mem_cons_of_mem a hx)

theorem outerLoop_rows_chain (matrix : List (List String)) (maxCols : ℕ)
    (fonte sheet fallback : String) :
    ∀ fuel i bloco : ℕ,
      ((outerLoop matrix maxCols fonte sheet fallback fuel i bloco).map
        DetailRow.bloco).Chain' (fun a b => a ≤ b) := by
  intro fuel
  induction fuel with
  | zero => intro i bloco; exact List.chain'_nil
  | succ f ih =>
    intro i bloco
    by_cases hi : i < matrix.length
    · cases hm : looks_header_row (matrix.getD i []) with
      | some mapping =>
        rw [outerLoop_header_step _ _ _ _ _ _ _ _ _ hi hm, List.map_append]
        apply List.Chain'.append
        · apply chain_le_of_all_eq (bloco + 1)
          intro x hx
          rcases List.mem_map.mp hx with ⟨r, hr, rfl⟩
          exact (innerLoop_rows_bloco_title matrix maxCols fonte sheet
            (resolveTitle matrix i fallback) (bloco + 1) mapping matrix.length (i + 1) 0 r hr).1
        · exact ih _ _
        · intro x hx y hy
          have hxm : x ∈ (innerLoop matrix maxCols fonte sheet
              (resolveTitle matrix i fallback) (bloco + 1) mapping
              matrix.length (i + 1) 0).2.map DetailRow.bloco :=
            List.mem_of_mem_getLast? hx
          have hym : y ∈ (outerLoop matrix maxCols fonte sheet fallback f
              (innerLoop matrix maxCols fonte sheet (resolveTitle matrix i fallback) (bloco + 1)
                mapping matrix.length (i + 1) 0).1 (bloco + 1)).map DetailRow.bloco :=
            List.mem_of_mem_head? hy
          rcases List.mem_map.mp hxm with ⟨r1, hr1, rfl⟩
          rcases List.mem_map.mp hym with ⟨r2, hr2, rfl⟩
          have h1 := (innerLoop_rows_bloco_title matrix maxCols fonte sheet
            (resolveTitle matrix i fallback) (bloco + 1) mapping matrix.length (i + 1) 0 r1 hr1).1
          have h2 := outerLoop_rows_bloco_gt matrix maxCols fonte sheet fallback f _ _ r2 hr2
          omega
      | none =>
        rw [outerLoop_skip _ _ _ _ _ _ _ _ hi hm]
        exact ih _ _
    · rw [outerLoop_out_of_range _ _ _ _ _ _ _ _ hi]
      exact List.chain'_nil

theorem outerLoop_same_bloco_same_title (matrix : List (List String)) (maxCols : ℕ)
    (fonte sheet fallback : String) :
    ∀ (fuel i bloco : ℕ) (r1 r2 : DetailRow),
      r1 ∈ outerLoop matrix maxCols fonte sheet fallback fuel i bloco →
      r2 ∈ outerLoop matrix maxCols fonte sheet fallback fuel i bloco →
      r1.bloco = r2.bloco → r1.desenho = r2.desenho := by
  intro fuel
  induction fuel with
  | zero => intro i bloco r1 r2 h1 _ _; cases h1
  | succ f ih =>
    intro i bloco r1 r2 h1 h2 hb
    by_cases hi : i < matrix.length
    · cases hm : looks_header_row (matrix.getD i []) with
      | some mapping =>
        rw [outerLoop_header_step _ _ _ _ _ _ _ _ _ hi hm] at h1 h2
        rcases List.mem_append.mp h1 with h1a | h1a <;>
          rcases List.mem_append.mp h2 with h2a | h2a
        · have e1 := (innerLoop_rows_bloco_title matrix maxCols fonte sheet
            (resolveTitle matrix i fallback) (bloco + 1) mapping matrix.length (i + 1) 0 r1 h1a).2.1
          have e2 := (innerLoop_rows_bloco_title matrix maxCols fonte sheet
            (resolveTitle matrix i fallback) (bloco + 1) mapping matrix.length (i + 1) 0 r2 h2a).2.1
          rw [e1, e2]
        · have e1 := (innerLoop_rows_bloco_title matrix maxCols fonte sheet
            (resolveTitle matrix i fallback) (bloco + 1) mapping matrix.length (i + 1) 0 r1 h1a).1
          have e2 := outerLoop_rows_bloco_gt matrix maxCols fonte sheet fallback f _ _ r2 h2a
          omega
        · have e1 := outerLoop_rows_bloco_gt matrix maxCols fonte sheet fallback f _ _ r1 h1a
          have e2 := (innerLoop_rows_bloco_title matrix maxCols fonte sheet
            (resolveTitle matrix i fallback) (bloco + 1) mapping matrix.length (i + 1) 0 r2 h2a).1
          omega
        · exact ih _ _ r1 r2 h1a h2a hb
      | none =>
        rw [outerLoop_skip _ _ _ _ _ _ _ _ hi hm] at h1 h2
        exact ih _ _ r1 r2 h1 h2 hb
    · rw [outerLoop_out_of_range _ _ _ _ _ _ _ _ hi] at h1
      cases h1

/-- Claim C10: every detail row of a block carries that block's number and
once-resolved title; rows of the outer scan started at counter `bloco` carry
numbers at least `bloco + 1` (so `parse_blocks` output is 1-based, and each
detected header row increments the counter by exactly one); block numbers
appear in non-decreasing order; and rows sharing a block number share their
title. -/
theorem claim_C10_block_numbering (grid : List (List String)) (maxCols : ℕ)
    (fonte sheet fallback : String) :
    (∀ (matrix : List (List String)) (title : String) (bloco : ℕ)
        (mapping : HeaderMapping) (fuel i blank : ℕ) (r : DetailRow),
        r ∈ (innerLoop matrix maxCols fonte sheet title bloco mapping fuel i blank).2 →
        r.bloco = bloco ∧ r.desenho = title)
    ∧ (∀ (matrix : List (List String)) (fuel i bloco : ℕ) (r : DetailRow),
        r ∈ outerLoop matrix maxCols fonte sheet fallback fuel i bloco →
        bloco + 1 ≤ r.bloco)
    ∧ (∀ r : DetailRow, r ∈ parse_blocks grid maxCols fonte sheet fallback → 1 ≤ r.bloco)
    ∧ ((parse_blocks grid maxCols fonte sheet fallback).map DetailRow.bloco).Chain'
        (fun a b => a ≤ b)
    ∧ (∀ r1 r2 : DetailRow, r1 ∈ parse_blocks grid maxCols fonte sheet fallback →
        r2 ∈ parse_blocks grid maxCols fonte sheet fallback →
        r1.bloco = r2.bloco → r1.desenho = r2.desenho) := by
  refine ⟨?_, ?_, ?_, ?_, ?_⟩
  · intro matrix title bloco mapping fuel i blank r hr
    have := innerLoop_rows_bloco_title matrix maxCols fonte sheet title bloco mapping
      fuel i blank r hr
    exact ⟨this.1, this.2.1⟩
  · intro matrix fuel i bloco r hr
    exact outerLoop_rows_bloco_gt matrix maxCols fonte sheet fallback fuel i bloco r hr
  · intro r hr
    exact outerLoop_rows_bloco_gt _ maxCols fonte sheet fallback _ 0 0 r hr
  · exact outerLoop_rows_chain _ maxCols fonte sheet fallback _ 0 0
  · intro r1 r2 h1 h2 hb
    exact outerLoop_same_bloco_same_title _ maxCols fonte sheet fallback _ 0 0 r1 r2 h1 h2 hb

/-- Witness for claim C10 on a two-block sheet. -/
theorem claim_C10_block_numbering_witness :
    (1 ≤ DetailRow.bloco
      { arquivo := "f", aba := "s", desenho := "Parafuso", bloco := 1, item := "1", codBk := "",
        codCliente := "", descricao := "Parafuso", quant := "2", un := "UN" })
    ∧ ((parse_blocks
        [["ITEM", "CÓD. BK", "CÓD. CLIENTE", "DESCRIÇÃO", "QUANT.", "UN."],
         ["1", "", "", "Parafuso", "2", "UN"]] 6 "f" "s" "t").map DetailRow.bloco).Chain'
        (fun a b => a ≤ b) :=
  ⟨(claim_C10_block_numbering
      [["ITEM", "CÓD. BK", "CÓD. CLIENTE", "DESCRIÇÃO", "QUANT.", "UN."],
       ["1", "", "", "Parafuso", "2", "UN"]] 6 "f" "s" "t").2.2.1 _ (by decide),
   (claim_C10_block_numbering
      [["ITEM", "CÓD. BK", "CÓD. CLIENTE", "DESCRIÇÃO", "QUANT.", "UN."],
       ["1", "", "", "Parafuso", "2", "UN"]] 6 "f" "s" "t").2.2.2.1⟩

/-! ## Lemmas about empty descriptions (claim C5) -/

theorem wordsAux_all_space : ∀ l : List Char, (∀ c ∈ l, pySpaceChar c = true) →
    wordsAux l [] = [] := by
  intro l
  induction l with
  | nil => intro _; rfl
  | cons c cs ih =>
    intro h
    have hc := h c (List.mem_cons_self c cs)
    simp only [wordsAux, hc, if_true, List.isEmpty_nil]
    exact ih (fun x hx => h x (List.mem_cons_of_mem c hx))

theorem normCell_eq_empty_of_all_space (s : String)
    (h : ∀ c ∈ s.toList, pySpaceChar c = true) : normCell s = "" := by
  unfold normCell
  rw [wordsAux_all_space]
  · rfl
  · intro c hc
    rcases List.mem_map.mp hc with ⟨c0, hc0, rfl⟩
    by_cases he : c0 = nbsp
    · simp only [he, if_true]
      decide
    · simp only [he, if_false]
      exact h c0 hc0

theorem pyStrip_empty_imp (s : String) (h : pyStrip s = "") : normCell s = "" := by
  apply normCell_eq_empty_of_all_space
  have hl : ((s.toList.dropWhile pySpaceChar).reverse.dropWhile pySpaceChar).reverse = [] := by
    have := congrArg String.toList h
    simpa [pyStrip] using this
  rw [List.reverse_eq_nil_iff, List.dropWhile_eq_nil_iff] at hl
  intro c hc
  rw [← List.takeWhile_append_dropWhile (p := pySpaceChar) (l := s.toList)] at hc
  rcases List.mem_append.mp hc with h1 | h1
  · exact List.mem_takeWhile_imp h1
  · exact hl c (List.mem_reverse.mpr h1)

theorem outerLoop_rows_desc (matrix : List (List String)) (maxCols : ℕ)
    (fonte sheet fallback : String) :
    ∀ (fuel i bloco : ℕ) (r : DetailRow),
      r ∈ outerLoop matrix maxCols fonte sheet fallback fuel i bloco →
      normCell r.descricao ≠ "" := by
  intro fuel
  induction fuel with
  | zero => intro i bloco r hr; cases hr
  | succ f ih =>
    intro i bloco r hr
    by_cases hi : i < matrix.length
    · cases hm : looks_header_row (matrix.getD i []) with
      | some mapping =>
        rw [outerLoop_header_step _ _ _ _ _ _ _ _ _ hi hm] at hr
        rcases List.mem_append.mp hr with hr2 | hr2
        · exact (innerLoop_rows_bloco_title matrix maxCols fonte sheet
            (resolveTitle matrix i fallback) (bloco + 1) mapping matrix.length (i + 1) 0
            r hr2).2.2
        · exact ih _ _ r hr2
      | none =>
        rw [outerLoop_skip _ _ _ _ _ _ _ _ hi hm] at hr
        exact ih _ _ r hr
    · rw [outerLoop_out_of_range _ _ _ _ _ _ _ _ hi] at hr
      cases hr

theorem consolidateStep_skip (st : (String → Option AggEntry) × List String)
    (row : DetailRow) (h : pyStrip row.descricao = "") : consolidateStep st row = st := by
  simp [consolidateStep, h]

/-- Claim C5: a row whose description is empty after trimming is never
materialized as a `DetailRow` by the block parser (every materialized row has
a description that is non-empty both after cell normalization and after
trimming), and such a row never contributes to any consolidated record — the
consolidator's output is unchanged when it is removed. -/
theorem claim_C5_empty_description :
    (∀ (grid : List (List String)) (maxCols : ℕ) (fonte sheet fallback : String)
        (r : DetailRow), r ∈ parse_blocks grid maxCols fonte sheet fallback →
        normCell r.descricao ≠ "" ∧ pyStrip r.descricao ≠ "")
    ∧ (∀ (l1 l2 : List DetailRow) (r : DetailRow), pyStrip r.descricao = "" →
        consolidate (l1 ++ r :: l2) = consolidate (l1 ++ l2)) := by
  constructor
  · intro grid maxCols fonte sheet fallback r hr
    have h1 : normCell r.descricao ≠ "" :=
      outerLoop_rows_desc _ maxCols fonte sheet fallback _ 0 0 r hr
    exact ⟨h1, fun hc => h1 (pyStrip_empty_imp _ hc)⟩
  · intro l1 l2 r h
    have hfold : (l1 ++ r :: l2).foldl consolidateStep (initAgg, []) =
        (l1 ++ l2).foldl consolidateStep (initAgg, []) := by
      rw [List.foldl_append, List.foldl_append, List.foldl_cons, consolidateStep_skip _ r h]
    simp only [consolidate, consolidateState, hfold]

/-- Witness for claim C5: the single extracted row of a small sheet has a
non-empty description. -/
theorem claim_C5_empty_description_witness :
    normCell (DetailRow.descricao
      { arquivo := "f", aba := "s", desenho := "Parafuso", bloco := 1, item := "1",
        codBk := "", codCliente := "", descricao := "Parafuso", quant := "2", un := "UN" })
      ≠ "" ∧
    pyStrip (DetailRow.descricao
      { arquivo := "f", aba := "s", desenho := "Parafuso", bloco := 1, item := "1",
        codBk := "", codCliente := "", descricao := "Parafuso", quant := "2", un := "UN" })
      ≠ "" :=
  claim_C5_empty_description.1
    [["ITEM", "CÓD. BK", "CÓD. CLIENTE", "DESCRIÇÃO", "QUANT.", "UN."],
     ["1", "", "", "Parafuso", "2", "UN"]] 6 "f" "s" "t" _ (by decide)

/-! ## Lemmas about the Title Locator (claim C7) -/

theorem orderedInsert_head (a : ℕ × String) (s : List (ℕ × String)) :
    (List.orderedInsert lenGe a s).head? =
      some (match s with | [] => a | b :: _ => if lenGe a b then a else b) := by
  cases s with
  | nil => rfl
  | cons b t =>
    by_cases h : lenGe a b
    · simp [List.orderedInsert, h]
    · simp [List.orderedInsert, h]

theorem insertionSort_head_firstMax : ∀ l : List (ℕ × String),
    (List.insertionSort lenGe l).head? = firstMaxSpec l := by
  intro l
  induction l with
  | nil => rfl
  | cons a l ih =>
    rw [List.insertionSort, orderedInsert_head]
    rcases e : List.insertionSort lenGe l with _ | ⟨b, t⟩
    · have hl : l = [] := by
        have hp := List.perm_insertionSort lenGe l
        rw [e] at hp
        exact hp.symm.eq_nil
      subst hl
      rfl
    · have hb : firstMaxSpec l = some b := by
        rw [← ih, e]
        rfl
      simp only [firstMaxSpec, hb]
      unfold lenGe
      by_cases hc : b.1 ≤ a.1 <;> simp [hc]

theorem firstMaxSpec_mem : ∀ (l : List (ℕ × String)) (p : ℕ × String),
    firstMaxSpec l = some p → p ∈ l := by
  intro l
  induction l with
  | nil => intro p h; cases h
  | cons a t ih =>
    intro p h
    rcases e : firstMaxSpec t with _ | q
    · simp only [firstMaxSpec, e, Option.some.injEq] at h
      subst h
      exact List.mem_cons_self a t
    · simp only [firstMaxSpec, e] at h
      by_cases hc : q.1 ≤ a.1
      · rw [if_pos hc, Option.some.injEq] at h
        subst h
        exact List.mem_cons_self a t
      · rw [if_neg hc, Option.some.injEq] at h
        subst h
        exact List.mem_cons_of_mem a (ih q e)

theorem firstMaxSpec_of_decomp : ∀ (l1 : List (ℕ × String)) (p : ℕ × String)
    (l2 : List (ℕ × String)), (∀ q ∈ l1, q.1 < p.1) →
    (∀ q ∈ l1 ++ p :: l2, q.1 ≤ p.1) →
    firstMaxSpec (l1 ++ p :: l2) = some p := by
  intro l1
  induction l1 with
  | nil =>
    intro p l2 _ hmax
    rcases e : firstMaxSpec l2 with _ | q
    · simp only [List.nil_append, firstMaxSpec, e]
    · have hq : q ∈ l2 := firstMaxSpec_mem l2 q e
      simp only [List.nil_append, firstMaxSpec, e]
      rw [if_pos (hmax q (by simp [hq]))]
  | cons a t ih =>
    intro p l2 hlt hmax
    have hrec := ih p l2 (fun q hq => hlt q (List.mem_cons_of_mem a hq))
      (fun q hq => hmax q (List.mem_cons_of_mem a hq))
    simp only [List.cons_append, firstMaxSpec, List.append_eq, hrec]
    rw [if_neg (by
      have := hlt a (List.mem_cons_self a t)
      omega)]

theorem titleCandidates_mem (matrix : List (List String)) (i : ℕ) (p : ℕ × String)
    (hp : p ∈ titleCandidates matrix i) :
    p.1 = p.2.length ∧ is_candidate_title p.2 = true := by
  rcases List.mem_filterMap.mp hp with ⟨val, _, hval⟩
  by_cases hc : is_candidate_title (normCell val) = true
  · rw [if_pos hc, Option.some.injEq] at hval
    subst hval
    exact ⟨rfl, hc⟩
  · rw [if_neg hc] at hval
    cases hval

theorem is_candidate_title_deny (t : String) (h : is_candidate_title t = true) :
    badSubs.any (fun b => strContains (upperStr (strip_accents (normCell t))) b) = false := by
  simp only [is_candidate_title] at h
  split_ifs at h with h1 h2 h3 h4
  all_goals first
    | exact absurd h (by decide)
    | simpa using h3

/-- The candidate list only depends on the window cells. -/
theorem find_title_near_window (matrix matrix2 : List (List String)) (i : ℕ)
    (hw : windowCells matrix i = windowCells matrix2 i) :
    find_title_near matrix i = find_title_near matrix2 i := by
  unfold find_title_near titleCandidates
  rw [hw]

/-- Claim C7: the Title Locator looks only at the cells of the rows within
three rows of the header (clipped to the grid); its candidates are exactly
the normalized cell texts passing `is_candidate_title`, paired with their
character lengths; it returns the earliest candidate of maximal length (the
first element of the stable descending sort); a non-empty result always
passes `is_candidate_title`, hence never contains a denylisted substring in
its accent-stripped upper-cased form; and with no candidate the resolved
title is the caller's fallback. -/
theorem claim_C7_title_locator (matrix : List (List String)) (i : ℕ) :
    (∀ matrix2 : List (List String), windowCells matrix i = windowCells matrix2 i →
        find_title_near matrix i = find_title_near matrix2 i)
    ∧ (∀ p ∈ titleCandidates matrix i, p.1 = p.2.length ∧ is_candidate_title p.2 = true)
    ∧ (titleCandidates matrix i = [] →
        find_title_near matrix i = "" ∧ ∀ fb : String, resolveTitle matrix i fb = fb)
    ∧ (∀ (p : ℕ × String) (l1 l2 : List (ℕ × String)),
        titleCandidates matrix i = l1 ++ p :: l2 →
        (∀ q ∈ l1, q.1 < p.1) →
        (∀ q ∈ titleCandidates matrix i, q.1 ≤ p.1) →
        find_title_near matrix i = p.2)
    ∧ (find_title_near matrix i ≠ "" →
        is_candidate_title (find_title_near matrix i) = true ∧
        badSubs.any (fun b =>
          strContains (upperStr (strip_accents (normCell (find_title_near matrix i)))) b)
          = false) := by
  refine ⟨fun m2 => find_title_near_window matrix m2 i, fun p hp => titleCandidates_mem matrix i p hp,
    ?_, ?_, ?_⟩
  · intro hc
    have hemp : find_title_near matrix i = "" := by
      unfold find_title_near
      rw [hc]
      rfl
    refine ⟨hemp, fun fb => ?_⟩
    unfold resolveTitle
    rw [hemp]
    rfl
  · intro p l1 l2 hdec hlt hmax
    rw [hdec] at hmax
    have hfm : firstMaxSpec (titleCandidates matrix i) = some p := by
      rw [hdec]
      exact firstMaxSpec_of_decomp l1 p l2 hlt hmax
    rcases es : List.insertionSort lenGe (titleCandidates matrix i) with _ | ⟨q, tl⟩
    · have hh := insertionSort_head_firstMax (titleCandidates matrix i)
      rw [es, hfm] at hh
      cases hh
    · have hh := insertionSort_head_firstMax (titleCandidates matrix i)
      rw [es, hfm] at hh
      have hq : q = p := by
        simpa using hh
      unfold find_title_near
      rw [es]
      show q.2 = p.2
      rw [hq]
  · intro hne
    rcases es : List.insertionSort lenGe (titleCandidates matrix i) with _ | ⟨q, tl⟩
    · exact absurd (by unfold find_title_near; rw [es]) hne
    · have hv : find_title_near matrix i = q.2 := by
        unfold find_title_near
        rw [es]
      have hmem : q ∈ titleCandidates matrix i :=
        (List.perm_insertionSort lenGe (titleCandidates matrix i)).mem_iff.mp
          (by rw [es]; exact List.mem_cons_self q tl)
      have hct := (titleCandidates_mem matrix i q hmem).2
      rw [hv]
      exact ⟨hct, is_candidate_title_deny q.2 hct⟩

theorem claim_C7_title_locator_witness :
    titleCandidates [["", "PORTA CORTA FOGO"], ["QUANT. TOTAL", "CASA"], [""]] 1
        = [] ++ (16, "PORTA CORTA FOGO") :: [(4, "CASA")] ∧
    find_title_near [["", "PORTA CORTA FOGO"], ["QUANT. TOTAL", "CASA"], [""]] 1
        = "PORTA CORTA FOGO" := by
  refine ⟨by decide, ?_⟩
  exact (claim_C7_title_locator
      [["", "PORTA CORTA FOGO"], ["QUANT. TOTAL", "CASA"], [""]] 1).2.2.2.1
    (16, "PORTA CORTA FOGO") [] [(4, "CASA")] (by decide) (by decide) (by decide)

/-! ## Lemmas about the Consolidator (claim C1) -/

theorem find_append_sing {α : Type} (l : List α) (x : α) (p : α → Bool) :
    (l ++ [x]).find? p =
      match l.find? p with
      | some r => some r
      | none => if p x then some x else none := by
  induction l with
  | nil =>
    cases hp : p x with
    | true => rw [List.nil_append, List.find?_cons_of_pos _ hp]; simp [List.find?_nil, hp]
    | false => rw [List.nil_append, List.find?_cons_of_neg _ (by simp [hp])]; simp [List.find?_nil, hp]
  | cons a t ih =>
    cases hp : p a with
    | true =>
      rw [List.cons_append, List.find?_cons_of_pos _ hp, List.find?_cons_of_pos _ hp]
    | false =>
      rw [List.cons_append, List.find?_cons_of_neg _ (by simp [hp]),
        List.find?_cons_of_neg _ (by simp [hp]), ih]

theorem mem_keysOf (rows : List DetailRow) (x : String) :
    x ∈ keysOf rows ↔ x ≠ "" ∧ ∃ r ∈ rows, keyOf r = x := by
  simp only [keysOf, List.mem_filterMap]
  constructor
  · rintro ⟨r, hr, he⟩
    by_cases h : keyOf r = ""
    · rw [if_pos h] at he; cases he
    · rw [if_neg h] at he
      injection he with he
      subst he
      exact ⟨h, r, hr, rfl⟩
  · rintro ⟨hx, r, hr, he⟩
    refine ⟨r, hr, ?_⟩
    rw [he, if_neg hx]

theorem keysOf_append_sing (l : List DetailRow) (x : DetailRow) :
    keysOf (l ++ [x]) = keysOf l ++ (if keyOf x = "" then [] else [keyOf x]) := by
  simp only [keysOf, List.filterMap_append]
  congr 1
  by_cases h : keyOf x = ""
  · simp [List.filterMap_cons, h]
  · simp [List.filterMap_cons, h]

theorem firstSeenAux_append_sing (y : String) (l : List String) : ∀ seen : List String,
    firstSeenAux seen (l ++ [y]) =
      firstSeenAux seen l ++ (if y ∈ seen ∨ y ∈ l then [] else [y]) := by
  induction l with
  | nil =>
    intro seen
    by_cases h : y ∈ seen <;> simp [firstSeenAux, h]
  | cons x t ih =>
    intro seen
    simp only [List.cons_append, firstSeenAux, List.append_eq]
    by_cases hx : x ∈ seen
    · rw [if_pos hx, if_pos hx, ih seen]
      have hiff : (y ∈ seen ∨ y ∈ t) ↔ (y ∈ seen ∨ y ∈ x :: t) := by
        constructor
        · exact fun h => h.elim Or.inl (fun h2 => Or.inr (List.mem_cons_of_mem x h2))
        · refine fun h => h.elim Or.inl (fun h2 => ?_)
          rcases List.mem_cons.mp h2 with he | ht
          · exact Or.inl (by rw [he]; exact hx)
          · exact Or.inr ht
      rw [if_congr hiff rfl rfl]
    · rw [if_neg hx, if_neg hx, ih (x :: seen), List.cons_append]
      have hiff : (y ∈ x :: seen ∨ y ∈ t) ↔ (y ∈ seen ∨ y ∈ x :: t) := by
        simp only [List.mem_cons]
        tauto
      rw [if_congr hiff rfl rfl]

theorem firstSeen_append_sing (l : List String) (y : String) :
    firstSeen (l ++ [y]) = firstSeen l ++ (if y ∈ l then [] else [y]) := by
  simp [firstSeen, firstSeenAux_append_sing]

theorem mem_firstSeenAux (x : String) (l : List String) : ∀ seen : List String,
    x ∈ firstSeenAux seen l ↔ x ∈ l ∧ x ∉ seen := by
  induction l with
  | nil => intro seen; simp [firstSeenAux]
  | cons a t ih =>
    intro seen
    simp only [firstSeenAux]
    by_cases ha : a ∈ seen
    · rw [if_pos ha, ih seen]
      constructor
      · rintro ⟨h1, h2⟩; exact ⟨List.mem_cons_of_mem a h1, h2⟩
      · rintro ⟨h1, h2⟩
        rcases List.mem_cons.mp h1 with he | ht
        · exact absurd (he.symm ▸ ha : x ∈ seen) h2
        · exact ⟨ht, h2⟩
    · rw [if_neg ha]
      simp only [List.mem_cons, ih (a :: seen)]
      constructor
      · rintro (he | ⟨ht, hn⟩)
        · exact ⟨Or.inl he, fun hs => ha (he ▸ hs)⟩
        · exact ⟨Or.inr ht, fun hs => hn (Or.inr hs)⟩
      · rintro ⟨he | ht, hn⟩
        · exact Or.inl he
        · by_cases hxa : x = a
          · exact Or.inl hxa
          · exact Or.inr ⟨ht, fun hs => hs.elim hxa hn⟩

theorem mem_firstSeen (l : List String) (x : String) : x ∈ firstSeen l ↔ x ∈ l := by
  rw [firstSeen, mem_firstSeenAux]
  simp

theorem nodup_firstSeenAux (l : List String) : ∀ seen : List String,
    (firstSeenAux seen l).Nodup := by
  induction l with
  | nil => intro seen; exact List.nodup_nil
  | cons a t ih =>
    intro seen
    simp only [firstSeenAux]
    by_cases ha : a ∈ seen
    · rw [if_pos ha]; exact ih seen
    · rw [if_neg ha]
      refine List.nodup_cons.mpr ⟨fun hmem => ?_, ih (a :: seen)⟩
      exact ((mem_firstSeenAux a t (a :: seen)).mp hmem).2 (List.mem_cons_self a seen)

theorem rowsFor_append_sing (l : List DetailRow) (x : DetailRow) (desc : String) :
    rowsFor (l ++ [x]) desc =
      rowsFor l desc ++ (if keyOf x = desc then [x] else []) := by
  simp only [rowsFor, List.filter_append]
  congr 1
  by_cases h : keyOf x = desc
  · simp [List.filter_cons, h]
  · simp [List.filter_cons, h]

theorem entrySpec_append_skip (l : List DetailRow) (x : DetailRow) (desc : String)
    (hne : keyOf x ≠ desc) : entrySpec (l ++ [x]) desc = entrySpec l desc := by
  have h1 : rowsFor (l ++ [x]) desc = rowsFor l desc := by
    rw [rowsFor_append_sing, if_neg hne, List.append_nil]
  have h2 : (l ++ [x]).find? (fun r => keyOf r == desc) =
      l.find? (fun r => keyOf r == desc) := by
    rw [find_append_sing]
    rcases e : l.find? (fun r => keyOf r == desc) with _ | r
    · simp [hne]
    · rfl
  simp only [entrySpec, qsumSpec, fontesSpec, desenhosSpec, h1, h2]

theorem rowsFor_eq_nil_of_find_none (l : List DetailRow) (desc : String)
    (h : l.find? (fun r => keyOf r == desc) = none) : rowsFor l desc = [] := by
  rw [rowsFor, List.filter_eq_nil_iff]
  intro r hr
  exact List.find?_eq_none.mp h r hr

theorem consolidateStep_spec (l : List DetailRow) (x : DetailRow) :
    consolidateStep (aggSpec l, firstSeen (keysOf l)) x =
      (aggSpec (l ++ [x]), firstSeen (keysOf (l ++ [x]))) := by
  have hkx : keyOf x = pyStrip x.descricao := rfl
  by_cases hd : pyStrip x.descricao = ""
  · have hkeys : keysOf (l ++ [x]) = keysOf l := by
      rw [keysOf_append_sing, if_pos (hkx.trans hd), List.append_nil]
    have hagg : aggSpec (l ++ [x]) = aggSpec l := by
      funext desc
      by_cases hdesc : desc = ""
      · simp [aggSpec, hdesc]
      · rw [show aggSpec (l ++ [x]) desc = entrySpec (l ++ [x]) desc from by
            simp [aggSpec, hdesc],
          show aggSpec l desc = entrySpec l desc from by simp [aggSpec, hdesc]]
        exact entrySpec_append_skip l x desc
          (fun he => hdesc (he.symm.trans (hkx.trans hd)))
    simp only [consolidateStep]
    rw [if_pos hd, hagg, hkeys]
  · have hkeys : keysOf (l ++ [x]) = keysOf l ++ [keyOf x] := by
      rw [keysOf_append_sing, if_neg (fun he => hd (hkx.symm.trans he))]
    rcases e : aggSpec l (pyStrip x.descricao) with _ | entry
    · -- first row for this key
      have he2 : entrySpec l (pyStrip x.descricao) = none := by
        have h3 := e
        rw [show aggSpec l (pyStrip x.descricao) = entrySpec l (pyStrip x.descricao)
            from by simp [aggSpec, hd]] at h3
        exact h3
      have hfind : l.find? (fun r => keyOf r == pyStrip x.descricao) = none := by
        rcases hf : l.find? (fun r => keyOf r == pyStrip x.descricao) with _ | r
        · rfl
        · rw [entrySpec, hf] at he2
          cases he2
      have hrows : rowsFor l (pyStrip x.descricao) = [] :=
        rowsFor_eq_nil_of_find_none l _ hfind
      have hnotmem : pyStrip x.descricao ∉ keysOf l := by
        intro hmem
        rcases (mem_keysOf l _).mp hmem with ⟨-, r, hr, hk⟩
        have h4 := List.find?_eq_none.mp hfind r hr
        simp [hk] at h4
      have hfind2 : (l ++ [x]).find? (fun r => keyOf r == pyStrip x.descricao) = some x := by
        rw [find_append_sing, hfind]
        simp [hkx]
      have hrows2 : rowsFor (l ++ [x]) (pyStrip x.descricao) = [x] := by
        rw [rowsFor_append_sing, hrows, if_pos hkx, List.nil_append]
      have hspec : entrySpec (l ++ [x]) (pyStrip x.descricao) =
          some ⟨x.codBk, x.codCliente, x.un, addF64 0 (to_float_br x.quant),
            insert (fonteOf x) ∅,
            if pyStrip x.desenho = "" then (∅ : Finset String)
            else insert (pyStrip x.desenho) ∅⟩ := by
        rw [entrySpec, hfind2, Option.map_some']
        have hq : qsumSpec (l ++ [x]) (pyStrip x.descricao)
            = addF64 0 (to_float_br x.quant) := by
          simp [qsumSpec, hrows2]
        have hfo : fontesSpec (l ++ [x]) (pyStrip x.descricao) = insert (fonteOf x) ∅ := by
          simp [fontesSpec, hrows2]
        have hde : desenhosSpec (l ++ [x]) (pyStrip x.descricao) =
            (if pyStrip x.desenho = "" then (∅ : Finset String)
             else insert (pyStrip x.desenho) ∅) := by
          by_cases hdes : pyStrip x.desenho = "" <;>
            simp [desenhosSpec, hrows2, hdes]
        rw [hq, hfo, hde]
      have hagg : Function.update (aggSpec l) (pyStrip x.descricao)
          (some ⟨x.codBk, x.codCliente, x.un, addF64 0 (to_float_br x.quant),
            insert (fonteOf x) ∅,
            if pyStrip x.desenho = "" then (∅ : Finset String)
            else insert (pyStrip x.desenho) ∅⟩)
          = aggSpec (l ++ [x]) := by
        funext desc
        by_cases hde : desc = pyStrip x.descricao
        · rw [hde, Function.update_same,
            show aggSpec (l ++ [x]) (pyStrip x.descricao)
              = entrySpec (l ++ [x]) (pyStrip x.descricao) from by simp [aggSpec, hd],
            hspec]
        · rw [Function.update_noteq hde]
          by_cases hdesc : desc = ""
          · simp [aggSpec, hdesc]
          · rw [show aggSpec (l ++ [x]) desc = entrySpec (l ++ [x]) desc from by
                simp [aggSpec, hdesc],
              show aggSpec l desc = entrySpec l desc from by simp [aggSpec, hdesc]]
            exact (entrySpec_append_skip l x desc
              (fun he => hde (he.symm.trans hkx))).symm
      have horder : firstSeen (keysOf l) ++ [pyStrip x.descricao] =
          firstSeen (keysOf (l ++ [x])) := by
        rw [hkeys, hkx, firstSeen_append_sing,
          if_neg (by rw [← hkx] at hnotmem; exact hnotmem)]
      simp only [consolidateStep, e]
      rw [if_neg hd]
      simp only [Prod.mk.injEq]
      exact ⟨hagg, horder⟩
    · -- the key was already present
      have he2 : entrySpec l (pyStrip x.descricao) = some entry := by
        have h3 := e
        rw [show aggSpec l (pyStrip x.descricao) = entrySpec l (pyStrip x.descricao)
            from by simp [aggSpec, hd]] at h3
        exact h3
      rcases hf : l.find? (fun r => keyOf r == pyStrip x.descricao) with _ | r0
      · rw [entrySpec, hf] at he2
        cases he2
      have hentry : entry = ⟨r0.codBk, r0.codCliente, r0.un,
          qsumSpec l (pyStrip x.descricao), fontesSpec l (pyStrip x.descricao),
          desenhosSpec l (pyStrip x.descricao)⟩ := by
        rw [entrySpec, hf, Option.map_some'] at he2
        injection he2 with he2
        exact he2.symm
      have hr0mem : r0 ∈ l := List.mem_of_find?_eq_some hf
      have hr0key : keyOf r0 = pyStrip x.descricao := by
        have h5 := List.find?_some hf
        simpa using h5
      have hmem : pyStrip x.descricao ∈ keysOf l :=
        (mem_keysOf l _).mpr ⟨hd, r0, hr0mem, hr0key⟩
      have hfind2 : (l ++ [x]).find? (fun r => keyOf r == pyStrip x.descricao) = some r0 := by
        rw [find_append_sing, hf]
      have hrows2 : rowsFor (l ++ [x]) (pyStrip x.descricao) =
          rowsFor l (pyStrip x.descricao) ++ [x] := by
        rw [rowsFor_append_sing, if_pos hkx]
      have hq : qsumSpec (l ++ [x]) (pyStrip x.descricao) =
          addF64 (qsumSpec l (pyStrip x.descricao)) (to_float_br x.quant) := by
        simp [qsumSpec, hrows2, List.foldl_append]
      have hfo : fontesSpec (l ++ [x]) (pyStrip x.descricao) =
          insert (fonteOf x) (fontesSpec l (pyStrip x.descricao)) := by
        simp only [fontesSpec, hrows2, List.map_append, List.toFinset_append]
        ext a
        simp [or_comm]
      have hdee : desenhosSpec (l ++ [x]) (pyStrip x.descricao) =
          (if pyStrip x.desenho = "" then desenhosSpec l (pyStrip x.descricao)
           else insert (pyStrip x.desenho) (desenhosSpec l (pyStrip x.descricao))) := by
        by_cases hdes : pyStrip x.desenho = ""
        · rw [if_pos hdes]
          simp [desenhosSpec, hrows2, List.filterMap_append, hdes]
        · rw [if_neg hdes]
          simp only [desenhosSpec, hrows2, List.filterMap_append, List.toFinset_append]
          rw [show List.filterMap (fun r =>
              if pyStrip r.desenho = "" then none else some (pyStrip r.desenho)) [x]
              = [pyStrip x.desenho] from by simp [hdes]]
          ext a
          simp [or_comm]
      have hspec : entrySpec (l ++ [x]) (pyStrip x.descricao) =
          some ⟨entry.codBk, entry.codCliente, entry.un,
            addF64 entry.qsum (to_float_br x.quant),
            insert (fonteOf x) entry.fontes,
            if pyStrip x.desenho = "" then entry.desenhos
            else insert (pyStrip x.desenho) entry.desenhos⟩ := by
        rw [entrySpec, hfind2, Option.map_some']
        simp only [hentry]
        rw [hq, hfo, hdee]
      have hagg : Function.update (aggSpec l) (pyStrip x.descricao)
          (some ⟨entry.codBk, entry.codCliente, entry.un,
            addF64 entry.qsum (to_float_br x.quant),
            insert (fonteOf x) entry.fontes,
            if pyStrip x.desenho = "" then entry.desenhos
            else insert (pyStrip x.desenho) entry.desenhos⟩)
          = aggSpec (l ++ [x]) := by
        funext desc
        by_cases hde : desc = pyStrip x.descricao
        · rw [hde, Function.update_same,
            show aggSpec (l ++ [x]) (pyStrip x.descricao)
              = entrySpec (l ++ [x]) (pyStrip x.descricao) from by simp [aggSpec, hd],
            hspec]
        · rw [Function.update_noteq hde]
          by_cases hdesc : desc = ""
          · simp [aggSpec, hdesc]
          · rw [show aggSpec (l ++ [x]) desc = entrySpec (l ++ [x]) desc from by
                simp [aggSpec, hdesc],
              show aggSpec l desc = entrySpec l desc from by simp [aggSpec, hdesc]]
            exact (entrySpec_append_skip l x desc
              (fun he => hde (he.symm.trans hkx))).symm
      have horder : firstSeen (keysOf l) = firstSeen (keysOf (l ++ [x])) := by
        rw [hkeys, hkx, firstSeen_append_sing, if_pos (hkx ▸ hmem), List.append_nil]
      simp only [consolidateStep, e]
      rw [if_neg hd]
      simp only [Prod.mk.injEq]
      exact ⟨hagg, horder⟩

theorem consolidate_fold (rows : List DetailRow) :
    consolidateState rows = (aggSpec rows, firstSeen (keysOf rows)) := by
  induction rows using List.reverseRecOn with
  | nil =>
    refine Prod.ext ?_ rfl
    funext desc
    simp [consolidateState, initAgg, aggSpec, entrySpec]
  | append_singleton l x ih =>
    rw [consolidateState, List.foldl_append, ← consolidateState, ih, List.foldl_cons,
      List.foldl_nil]
    exact consolidateStep_spec l x


theorem fontesSpec_perm (rows1 rows2 : List DetailRow) (h : rows1.Perm rows2)
    (desc : String) : fontesSpec rows1 desc = fontesSpec rows2 desc := by
  have h2 := (h.filter (fun r => keyOf r == desc)).map fonteOf
  ext a
  simp only [fontesSpec, rowsFor, List.mem_toFinset]
  exact h2.mem_iff

theorem desenhosSpec_perm (rows1 rows2 : List DetailRow) (h : rows1.Perm rows2)
    (desc : String) : desenhosSpec rows1 desc = desenhosSpec rows2 desc := by
  have h2 := (h.filter (fun r => keyOf r == desc)).filterMap
    (fun r => if pyStrip r.desenho = "" then none else some (pyStrip r.desenho))
  ext a
  simp only [desenhosSpec, rowsFor, List.mem_toFinset]
  exact h2.mem_iff

theorem filterMap_lookup_map_desc (f : String → Option AggEntry) :
    ∀ os : List String, (∀ d ∈ os, (f d).isSome) →
    (os.filterMap (fun desc => (f desc).map (fun d =>
      ({ codBk := d.codBk, codCliente := d.codCliente, descricao := desc,
         quant := d.qsum, un := d.un, desenhos := joinSorted d.desenhos,
         arquivosOrigem := joinSorted d.fontes } : ConsolidatedRow)))).map
      ConsolidatedRow.descricao = os := by
  intro os
  induction os with
  | nil => intro _; rfl
  | cons a t ih =>
    intro hall
    rcases he : f a with _ | e
    · exact absurd (hall a (List.mem_cons_self a t)) (by simp [he])
    · simp only [List.filterMap_cons, he, Option.map_some', List.map_cons]
      rw [ih (fun d hd => hall d (List.mem_cons_of_mem a hd))]

theorem aggSpec_isSome_of_mem_keys (rows : List DetailRow) (d : String)
    (hdm : d ∈ keysOf rows) : (aggSpec rows d).isSome := by
  rcases (mem_keysOf rows d).mp hdm with ⟨hne, r, hr, hk⟩
  rcases hf : rows.find? (fun rr => keyOf rr == d) with _ | r1
  · exfalso
    have h4 := List.find?_eq_none.mp hf r hr
    simp [hk] at h4
  · simp [aggSpec, hne, entrySpec, hf]

theorem consolidate_desc_eq (rows : List DetailRow) :
    (consolidate rows).map ConsolidatedRow.descricao = firstSeen (keysOf rows) := by
  rw [consolidate, consolidate_fold rows]
  exact filterMap_lookup_map_desc (aggSpec rows) (firstSeen (keysOf rows))
    (fun d hd => aggSpec_isSome_of_mem_keys rows d ((mem_firstSeen (keysOf rows) d).mp hd))

theorem consolidate_mem_spec (rows : List DetailRow) (c : ConsolidatedRow)
    (hc : c ∈ consolidate rows) :
    ∃ r0 : DetailRow,
      rows.find? (fun r => keyOf r == c.descricao) = some r0 ∧
      c.codBk = r0.codBk ∧ c.codCliente = r0.codCliente ∧ c.un = r0.un ∧
      c.quant = qsumSpec rows c.descricao ∧
      c.desenhos = joinSorted (desenhosSpec rows c.descricao) ∧
      c.arquivosOrigem = joinSorted (fontesSpec rows c.descricao) := by
  rw [consolidate, consolidate_fold rows] at hc
  rcases List.mem_filterMap.mp hc with ⟨desc, hdm, heq⟩
  dsimp only at hdm heq
  rcases he : aggSpec rows desc with _ | ent
  · rw [he] at heq; cases heq
  · rw [he, Option.map_some'] at heq
    injection heq with heq
    have hne : desc ≠ "" := by
      intro h0
      rw [aggSpec, if_pos h0] at he
      cases he
    have he2 : entrySpec rows desc = some ent := by
      rw [aggSpec, if_neg hne] at he
      exact he
    rcases hf : rows.find? (fun r => keyOf r == desc) with _ | r0
    · rw [entrySpec, hf] at he2
      cases he2
    · have hentry : ent = ⟨r0.codBk, r0.codCliente, r0.un, qsumSpec rows desc,
          fontesSpec rows desc, desenhosSpec rows desc⟩ := by
        rw [entrySpec, hf, Option.map_some'] at he2
        injection he2 with he2
        exact he2.symm
      refine ⟨r0, ?_⟩
      rw [← heq]
      simp only
      rw [hentry]
      exact ⟨hf, rfl, rfl, rfl, rfl, rfl, rfl⟩

/-- Claim C1 (amended): the Consolidator emits one record per distinct
non-empty description key, in first-seen order (the output's description
column is the first-occurrence deduplication of the row keys, without
repetition); each record's internal code, client code and unit are copied
from the first row seen for that key, its quantity is the parsed quantities
of the key's rows accumulated **in row order by binary64 float addition**
(`qsumSpec`), and its title/provenance strings render the sets of titles and
provenance tokens of those rows; reordering the input rows (any permutation)
preserves the set of emitted keys and the rendered title and provenance sets.
The frozen claim's further assertion that reordering also preserves every
quantity sum is false of the program — IEEE double addition is
order-dependent — see `claim_C1_counterexample`. -/
theorem claim_C1_consolidate_reorder (rows rows1 rows2 : List DetailRow) :
    ((consolidate rows).map ConsolidatedRow.descricao = firstSeen (keysOf rows))
    ∧ ((consolidate rows).map ConsolidatedRow.descricao).Nodup
    ∧ (∀ dsc : String,
        dsc ∈ (consolidate rows).map ConsolidatedRow.descricao ↔ dsc ∈ keysOf rows)
    ∧ (∀ c ∈ consolidate rows, ∃ r0 : DetailRow,
        rows.find? (fun r => keyOf r == c.descricao) = some r0 ∧
        c.codBk = r0.codBk ∧ c.codCliente = r0.codCliente ∧ c.un = r0.un ∧
        c.quant = qsumSpec rows c.descricao ∧
        c.desenhos = joinSorted (desenhosSpec rows c.descricao) ∧
        c.arquivosOrigem = joinSorted (fontesSpec rows c.descricao))
    ∧ (rows1.Perm rows2 →
        (∀ dsc : String, dsc ∈ (consolidate rows1).map ConsolidatedRow.descricao ↔
            dsc ∈ (consolidate rows2).map ConsolidatedRow.descricao)
        ∧ ∀ c1 ∈ consolidate rows1, ∀ c2 ∈ consolidate rows2,
            c1.descricao = c2.descricao →
            c1.desenhos = c2.desenhos ∧
            c1.arquivosOrigem = c2.arquivosOrigem) := by
  refine ⟨consolidate_desc_eq rows, ?_, ?_, consolidate_mem_spec rows, ?_⟩
  · rw [consolidate_desc_eq]
    exact nodup_firstSeenAux (keysOf rows) []
  · intro dsc
    rw [consolidate_desc_eq]
    exact mem_firstSeen (keysOf rows) dsc
  · intro h
    constructor
    · intro dsc
      simp only [consolidate_desc_eq, mem_firstSeen, mem_keysOf, h.mem_iff]
    · intro c1 hc1 c2 hc2 hdesc
      rcases consolidate_mem_spec rows1 c1 hc1 with
        ⟨r1, -, -, -, -, -, hd1, ha1⟩
      rcases consolidate_mem_spec rows2 c2 hc2 with
        ⟨r2, -, -, -, -, -, hd2, ha2⟩
      refine ⟨?_, ?_⟩
      · rw [hd1, hd2, ← hdesc, desenhosSpec_perm rows1 rows2 h]
      · rw [ha1, ha2, ← hdesc, fontesSpec_perm rows1 rows2 h]

/-- A sample detail row with description key "X". -/
def sampleRowA : DetailRow :=
  { arquivo := "a", aba := "s", desenho := "", bloco := 1, item := "1",
    codBk := "B1", codCliente := "C1", descricao := "X", quant := "", un := "UN" }

/-- A sample detail row with description key "Y". -/
def sampleRowB : DetailRow :=
  { arquivo := "a", aba := "s", desenho := "", bloco := 1, item := "2",
    codBk := "B2", codCliente := "C2", descricao := "Y", quant := "", un := "UN" }

/-- The consolidated record of key "X" for the two sample rows. -/
def sampleConsA : ConsolidatedRow :=
  { codBk := "B1", codCliente := "C1", descricao := "X", quant := addF64 0 (to_float_br ""),
    un := "UN", desenhos := joinSorted ∅,
    arquivosOrigem := joinSorted (insert (fonteOf sampleRowA) ∅) }

theorem claim_C1_consolidate_reorder_witness :
    ([sampleRowA, sampleRowB].Perm [sampleRowB, sampleRowA]) ∧
    sampleConsA ∈ consolidate [sampleRowA, sampleRowB] ∧
    sampleConsA ∈ consolidate [sampleRowB, sampleRowA] ∧
    (∃ r0 : DetailRow,
      [sampleRowA, sampleRowB].find? (fun r => keyOf r == sampleConsA.descricao)
        = some r0 ∧
      sampleConsA.codBk = r0.codBk ∧ sampleConsA.codCliente = r0.codCliente ∧
      sampleConsA.un = r0.un ∧
      sampleConsA.quant = qsumSpec [sampleRowA, sampleRowB] sampleConsA.descricao ∧
      sampleConsA.desenhos =
        joinSorted (desenhosSpec [sampleRowA, sampleRowB] sampleConsA.descricao) ∧
      sampleConsA.arquivosOrigem =
        joinSorted (fontesSpec [sampleRowA, sampleRowB] sampleConsA.descricao)) ∧
    (sampleConsA.desenhos = sampleConsA.desenhos ∧
      sampleConsA.arquivosOrigem = sampleConsA.arquivosOrigem) :=
  have hp : [sampleRowA, sampleRowB].Perm [sampleRowB, sampleRowA] := by decide
  have hm1 : sampleConsA ∈ consolidate [sampleRowA, sampleRowB] :=
    List.mem_cons_self _ _
  have hm2 : sampleConsA ∈ consolidate [sampleRowB, sampleRowA] :=
    List.mem_cons_of_mem _ (List.mem_cons_self _ _)
  ⟨hp, hm1, hm2,
    (claim_C1_consolidate_reorder [sampleRowA, sampleRowB] [sampleRowA, sampleRowB]
      [sampleRowB, sampleRowA]).2.2.2.1 sampleConsA hm1,
    ((claim_C1_consolidate_reorder [sampleRowA, sampleRowB] [sampleRowA, sampleRowB]
      [sampleRowB, sampleRowA]).2.2.2.2 hp).2 sampleConsA hm1 sampleConsA hm2 rfl⟩

theorem roundB64_zero : roundB64 0 = 0 := by
  rw [roundB64, if_pos rfl]

theorem roundB64_one : roundB64 (1 : ℚ) = 1 := by
  have hn : natLog2 4000 1 = 0 := by decide
  have hf : (⌊(1 : ℚ)⌋).toNat = 1 := by norm_num
  have h1 : qlog2floor 1 = 0 := by
    rw [qlog2floor, if_pos (le_refl (1 : ℚ)), hf, hn]
    norm_num
  have he : max (qlog2floor 1 - 52) (-1074 : ℤ) = -52 := by
    rw [h1]; decide
  rw [roundB64, if_neg (by norm_num), if_pos (by norm_num), he, roundAt,
    if_neg (by decide), show ((-(-52 : ℤ)).toNat) = 52 from rfl, one_mul]
  have hri : roundInt ((2 : ℚ) ^ 52) = 2 ^ 52 := by
    rw [roundInt, show (⌊((2 : ℚ) ^ 52)⌋) = 2 ^ 52 from by norm_num]
    norm_num
  rw [hri]
  norm_num

theorem roundB64_ten16 : roundB64 ((10 : ℚ) ^ 16) = 10 ^ 16 := by
  have hn : natLog2 4000 (10 ^ 16) = 53 := by decide
  have hf : (⌊((10 : ℚ) ^ 16)⌋).toNat = 10 ^ 16 := by
    norm_num
    rfl
  have h1 : qlog2floor ((10 : ℚ) ^ 16) = 53 := by
    rw [qlog2floor, if_pos (by norm_num), hf, hn]
    norm_num
  have he : max (qlog2floor ((10 : ℚ) ^ 16) - 52) (-1074 : ℤ) = 1 := by
    rw [h1]; decide
  rw [roundB64, if_neg (by norm_num), if_pos (by norm_num), he, roundAt,
    if_pos (by decide), show ((1 : ℤ).toNat) = 1 from rfl]
  have hri : roundInt ((10 : ℚ) ^ 16 / 2 ^ 1) = 5000000000000000 := by
    rw [roundInt, show (⌊((10 : ℚ) ^ 16 / 2 ^ 1)⌋) = 5000000000000000 from by norm_num]
    norm_num
  rw [hri]
  norm_num

theorem roundB64_ten16_add_one : roundB64 ((10 : ℚ) ^ 16 + 1) = 10 ^ 16 := by
  have hn : natLog2 4000 (10 ^ 16 + 1) = 53 := by decide
  have hf : (⌊((10 : ℚ) ^ 16 + 1)⌋).toNat = 10 ^ 16 + 1 := by
    norm_num
    rfl
  have h1 : qlog2floor ((10 : ℚ) ^ 16 + 1) = 53 := by
    rw [qlog2floor, if_pos (by norm_num), hf, hn]
    norm_num
  have he : max (qlog2floor ((10 : ℚ) ^ 16 + 1) - 52) (-1074 : ℤ) = 1 := by
    rw [h1]; decide
  rw [roundB64, if_neg (by norm_num), if_pos (by norm_num), he, roundAt,
    if_pos (by decide), show ((1 : ℤ).toNat) = 1 from rfl]
  have hri : roundInt (((10 : ℚ) ^ 16 + 1) / 2 ^ 1) = 5000000000000000 := by
    rw [roundInt,
      show (⌊(((10 : ℚ) ^ 16 + 1) / 2 ^ 1)⌋) = 5000000000000000 from by
        rw [Int.floor_eq_iff]
        norm_num]
    norm_num
  rw [hri]
  norm_num

theorem addF64_zero_ten16 : addF64 0 ((10 : ℚ) ^ 16) = 10 ^ 16 := by
  rw [addF64, zero_add, roundB64_ten16]

theorem addF64_ten16_neg : addF64 ((10 : ℚ) ^ 16) (-(10 ^ 16)) = 0 := by
  rw [addF64, show ((10 : ℚ) ^ 16 + -(10 ^ 16)) = 0 from by ring, roundB64_zero]

theorem addF64_zero_one : addF64 0 (1 : ℚ) = 1 := by
  rw [addF64, zero_add, roundB64_one]

theorem addF64_ten16_one : addF64 ((10 : ℚ) ^ 16) 1 = 10 ^ 16 := by
  rw [addF64, roundB64_ten16_add_one]

/-- A detail row adding `10^16` to the key "X". -/
def cexRowP : DetailRow :=
  { arquivo := "a", aba := "s", desenho := "", bloco := 1, item := "1",
    codBk := "B", codCliente := "C", descricao := "X",
    quant := "10000000000000000", un := "UN" }

/-- A detail row adding `-10^16` to the key "X". -/
def cexRowN : DetailRow :=
  { arquivo := "a", aba := "s", desenho := "", bloco := 1, item := "2",
    codBk := "B", codCliente := "C", descricao := "X",
    quant := "-10000000000000000", un := "UN" }

/-- A detail row adding `1` to the key "X". -/
def cexRowU : DetailRow :=
  { arquivo := "a", aba := "s", desenho := "", bloco := 1, item := "3",
    codBk := "B", codCliente := "C", descricao := "X", quant := "1", un := "UN" }

theorem to_float_br_ten16 : to_float_br "10000000000000000" = 10 ^ 16 := by
  simp +decide [to_float_br, pyFloat, pyFloatTail, normCell, wordsAux, joinWords,
    digitsVal]

theorem to_float_br_neg_ten16 : to_float_br "-10000000000000000" = -(10 ^ 16) := by
  simp +decide [to_float_br, pyFloat, pyFloatTail, normCell, wordsAux, joinWords,
    digitsVal]

theorem to_float_br_one : to_float_br "1" = 1 := by
  simp +decide [to_float_br, pyFloat, pyFloatTail, normCell, wordsAux, joinWords,
    digitsVal]

/-- Counterexample to the frozen claim C1: the quantity sum of a description
is NOT invariant under reordering the input rows, because the float `+=` of
app.py line 188 rounds to binary64 after every addition.  Summing the
quantities `10^16`, `-10^16`, `1` of the key "X" in that order yields `1`
(the cancellation happens before the small addend), but moving the `1`
before the `-10^16` yields `0`: `10^16 + 1` rounds back to `10^16` (ties to
even), and the subsequent cancellation erases the `1` entirely.  Both runs
consolidate the same multiset of detail rows. -/
theorem claim_C1_counterexample :
    [cexRowP, cexRowN, cexRowU].Perm [cexRowP, cexRowU, cexRowN] ∧
    (consolidate [cexRowP, cexRowN, cexRowU]).map ConsolidatedRow.quant = [1] ∧
    (consolidate [cexRowP, cexRowU, cexRowN]).map ConsolidatedRow.quant = [0] ∧
    (consolidate [cexRowP, cexRowN, cexRowU]).map ConsolidatedRow.quant ≠
      (consolidate [cexRowP, cexRowU, cexRowN]).map ConsolidatedRow.quant := by
  have hsum1 : qsumSpec [cexRowP, cexRowN, cexRowU] "X" = 1 := by
    rw [qsumSpec,
      show rowsFor [cexRowP, cexRowN, cexRowU] "X" = [cexRowP, cexRowN, cexRowU]
        from by decide]
    simp only [List.foldl_cons, List.foldl_nil]
    rw [show cexRowP.quant = "10000000000000000" from rfl,
      show cexRowN.quant = "-10000000000000000" from rfl,
      show cexRowU.quant = "1" from rfl,
      to_float_br_ten16, to_float_br_neg_ten16, to_float_br_one,
      addF64_zero_ten16, addF64_ten16_neg, addF64_zero_one]
  have hsum2 : qsumSpec [cexRowP, cexRowU, cexRowN] "X" = 0 := by
    rw [qsumSpec,
      show rowsFor [cexRowP, cexRowU, cexRowN] "X" = [cexRowP, cexRowU, cexRowN]
        from by decide]
    simp only [List.foldl_cons, List.foldl_nil]
    rw [show cexRowP.quant = "10000000000000000" from rfl,
      show cexRowN.quant = "-10000000000000000" from rfl,
      show cexRowU.quant = "1" from rfl,
      to_float_br_ten16, to_float_br_neg_ten16, to_float_br_one,
      addF64_zero_ten16, addF64_ten16_one, addF64_ten16_neg]
  have hmap1 : (consolidate [cexRowP, cexRowN, cexRowU]).map ConsolidatedRow.quant
      = [qsumSpec [cexRowP, cexRowN, cexRowU] "X"] := by
    rw [consolidate, consolidate_fold]
    dsimp only
    rw [show firstSeen (keysOf [cexRowP, cexRowN, cexRowU]) = ["X"] from by decide]
    simp only [List.filterMap_cons, List.filterMap_nil]
    rw [show aggSpec [cexRowP, cexRowN, cexRowU] "X"
        = some ⟨cexRowP.codBk, cexRowP.codCliente, cexRowP.un,
            qsumSpec [cexRowP, cexRowN, cexRowU] "X",
            fontesSpec [cexRowP, cexRowN, cexRowU] "X",
            desenhosSpec [cexRowP, cexRowN, cexRowU] "X"⟩ from by
      rw [aggSpec, if_neg (by decide), entrySpec,
        show [cexRowP, cexRowN, cexRowU].find? (fun r => keyOf r == "X") = some cexRowP
          from by decide,
        Option.map_some']]
    simp only [Option.map_some', List.map_cons, List.map_nil]
  have hmap2 : (consolidate [cexRowP, cexRowU, cexRowN]).map ConsolidatedRow.quant
      = [qsumSpec [cexRowP, cexRowU, cexRowN] "X"] := by
    rw [consolidate, consolidate_fold]
    dsimp only
    rw [show firstSeen (keysOf [cexRowP, cexRowU, cexRowN]) = ["X"] from by decide]
    simp only [List.filterMap_cons, List.filterMap_nil]
    rw [show aggSpec [cexRowP, cexRowU, cexRowN] "X"
        = some ⟨cexRowP.codBk, cexRowP.codCliente, cexRowP.un,
            qsumSpec [cexRowP, cexRowU, cexRowN] "X",
            fontesSpec [cexRowP, cexRowU, cexRowN] "X",
            desenhosSpec [cexRowP, cexRowU, cexRowN] "X"⟩ from by
      rw [aggSpec, if_neg (by decide), entrySpec,
        show [cexRowP, cexRowU, cexRowN].find? (fun r => keyOf r == "X") = some cexRowP
          from by decide,
        Option.map_some']]
    simp only [Option.map_some', List.map_cons, List.map_nil]
  have ha : (consolidate [cexRowP, cexRowN, cexRowU]).map ConsolidatedRow.quant = [1] := by
    rw [hmap1, hsum1]
  have hb : (consolidate [cexRowP, cexRowU, cexRowN]).map ConsolidatedRow.quant = [0] := by
    rw [hmap2, hsum2]
  refine ⟨by decide, ha, hb, ?_⟩
  intro hcontra
  rw [ha, hb] at hcontra
  norm_num at hcontra
